import Mathlib

/-! DDC/CI frame codec, retry discipline and capabilities loop of `ddcci-tool.c`

A shallow embedding of the protocol engine of `src/ddcci-tool.c`.

* Bytes (`unsigned char`) are natural numbers below 256; every store that
  truncates in C carries an explicit `% 256`.
* A C array is a `List Nat`; `b.getD i 0` is the read `b[i]`.
* The bus transport (the two `ioctl(fd, I2C_RDWR, ...)` calls) is an external
  collaborator: a `Transport σ` is an arbitrary state machine answering them.
* Everything the program does to the outside world is appended to a trace of
  `Event`s, so that "what was handed to the transport" and "how many times"
  are observable.  The text written to `stderr` (`dumphex`, the error
  messages) and the fixed headings printed by `main` are not part of the
  trace; the reads of `_buf` that the diagnostics of `ddcci_read` perform are
  recorded in `ReadRun.reads`.
* `ddcci_read` receives into `unsigned char _buf[MAX_BYTES]`: `ddcci_read_run`
  records how many bytes the transport is asked to store there (`stored`) and
  every index of `_buf` that is read afterwards (`reads`).
* The capabilities loop of `main` may in principle run for long: it is run
  with a fuel of passes, and termination is proved, not assumed.
-/

namespace Ddcci

/-! ## Constants (`#define`s) -/

def DDCCI_COMMAND_READ : Nat := 0x01
def DDCCI_REPLY_READ : Nat := 0x02
def DDCCI_COMMAND_WRITE : Nat := 0x03
def DDCCI_REPLY_CAPS : Nat := 0xe3
def DDCCI_COMMAND_CAPS : Nat := 0xf3
def DEFAULT_DDCCI_ADDR : Nat := 0x37
def MAX_BYTES : Nat := 127
def DELAY : Nat := 30000
def RETRYS : Nat := 3
def MAGIC_1 : Nat := 0x51
def MAGIC_2 : Nat := 0x80
def MAGIC_XOR : Nat := 0x50

/-! ## The outside world -/

/-- Observable actions of the program. -/
inductive Event where
  /-- one `ioctl` write message: peripheral address and the bytes handed over -/
  | i2cWrite (addr : Nat) (bytes : List Nat)
  /-- one `ioctl` read message: peripheral address and the byte count asked for -/
  | i2cRead (addr : Nat) (len : Nat)
  /-- one `usleep` call -/
  | usleep (us : Nat)
  /-- the line `Control 0x..: +/current/maximum` printed by `ddcci_dumpctrl`;
  `validity` is the raw validity byte (0 prints `+`, anything else `-`) -/
  | printCtrl (ctrl : Nat) (validity : Nat) (current : Nat) (maximum : Nat)
  /-- one capability data byte printed to `stdout` by the capabilities loop of
  `main` (as a character or as `0x..`, depending on the byte) -/
  | printCaps (byte : Nat)
  deriving DecidableEq

/-- The raw bus transport.  `ioctlWrite d addr bytes` is the result of the
`ioctl` for a write message and the next device state; `ioctlRead d addr len`
is the result of the `ioctl` for a read message of `len` bytes, the contents
of the destination buffer after the call, and the next device state. -/
structure Transport (σ : Type) where
  ioctlWrite : σ → Nat → List Nat → Int × σ
  ioctlRead : σ → Nat → Nat → Int × List Nat × σ

/-- Device state together with the trace of what the program did so far. -/
structure Sys (σ : Type) where
  dev : σ
  trace : List Event

/-- `usleep(us)`. -/
def usleep {σ : Type} (s : Sys σ) (us : Nat) : Sys σ :=
  ⟨s.dev, s.trace ++ [Event.usleep us]⟩

/-- `i2c_write(fd, addr, buf, len)`: hands `buf[0..len)` to the transport;
`-1` when the `ioctl` fails, its result otherwise. -/
def i2c_write {σ : Type} (T : Transport σ) (s : Sys σ) (addr : Nat) (buf : List Nat)
    (len : Nat) : Int × Sys σ :=
  let r := T.ioctlWrite s.dev addr (buf.take len)
  let s1 : Sys σ := ⟨r.2, s.trace ++ [Event.i2cWrite addr (buf.take len)]⟩
  if r.1 < 0 then (-1, s1) else (r.1, s1)

/-- `i2c_read(fd, addr, buf, len)`: result (`-1` when the `ioctl` fails), the
contents of `buf` after the call, and the new state. -/
def i2c_read {σ : Type} (T : Transport σ) (s : Sys σ) (addr : Nat) (len : Nat) :
    Int × List Nat × Sys σ :=
  let r := T.ioctlRead s.dev addr len
  let s1 : Sys σ := ⟨r.2.2, s.trace ++ [Event.i2cRead addr len]⟩
  if r.1 < 0 then (-1, r.2.1, s1) else (r.1, r.2.1, s1)

/-! ## Frame codec -/

/-- The loop `while (len--) xor ^= (_buf[i++] = *buf++);` of `ddcci_write`:
the arguments are the remaining count, the remaining source bytes, the running
xor and the bytes stored into `_buf` so far. -/
def ddcci_write_loop : Nat → List Nat → Nat → List Nat → Nat × List Nat
  | 0, _, xor, out => (xor, out)
  | len + 1, buf, xor, out =>
    ddcci_write_loop len buf.tail (xor ^^^ buf.headD 0) (out ++ [buf.headD 0])

/-- The bytes `ddcci_write` stores through `_buf[i++]`, in order (so `i` is the
length of the result).  The array `_buf` has `MAX_BYTES + 3` elements; the code
performs no check of `len` against it. -/
def ddcci_write_buf (addr : Nat) (buf : List Nat) (len : Nat) : List Nat :=
  let xor0 := (addr % 256) <<< 1
  let xor1 := xor0 ^^^ MAGIC_1
  let b1 := (MAGIC_2 ||| len) % 256
  let xor2 := xor1 ^^^ b1
  let r := ddcci_write_loop len buf xor2 [MAGIC_1, b1]
  r.2 ++ [r.1 % 256]

/-- `ddcci_write(fd, addr, buf, len)`: `return i2c_write(fd, addr, _buf, i)`,
the count `i` being converted to `unsigned char`. -/
def ddcci_write {σ : Type} (T : Transport σ) (s : Sys σ) (addr : Nat) (buf : List Nat)
    (len : Nat) : Int × Sys σ :=
  let out := ddcci_write_buf addr buf len
  i2c_write T s addr out (out.length % 256)

/-- The loop `for (i = 0; i < n; i++) xor ^= _buf[i];` of `ddcci_read`, with
`unsigned char xor = MAGIC_XOR`. -/
def ddcci_read_xor (rbuf : List Nat) (n : Nat) : Nat :=
  (List.range n).foldl (fun xor i => (xor ^^^ rbuf.getD i 0) % 256) MAGIC_XOR

/-- `memcpy(dst, src, n)`: the `n` elements `src[0..n)` replace `dst[0..n)`. -/
def memcpy (dst src : List Nat) (n : Nat) : List Nat :=
  (List.range n).map (fun i => src.getD i 0) ++ dst.drop n

/-- The indices at which `dumphex(f, buf, len)` reads `buf`: for each row
`j = 0, 16, 32, ...` below `len`, the hexadecimal pass and then the character
pass read `buf[i + j]` for every `i < 16` with `i + j < len`. -/
def dumphex_reads (len : Nat) : List Nat :=
  (List.range ((len + 15) / 16)).flatMap (fun k =>
    ((List.range 16).filter (fun i => decide (i + 16 * k < len))).map (fun i => i + 16 * k) ++
    ((List.range 16).filter (fun i => decide (i + 16 * k < len))).map (fun i => i + 16 * k))

/-- What one call of `ddcci_read` does.  `ret`, `buf` and `sys` are the result,
the caller's buffer after the call and the new state.  `stored` is the number
of bytes the transport is asked to store into the local array
`unsigned char _buf[MAX_BYTES]`, and `reads` lists the indices of `_buf` the
call reads, the diagnostics to `stderr` included: the header indices
(`_buf[0]`, `_buf[1]`, listed once each however many tests and messages use
them), then the indices of the dump, of the checksum fold and its diagnostic,
and of the payload copy, in program order.

The call stays inside `_buf` when `stored ≤ MAX_BYTES` and every index of
`reads` is below `MAX_BYTES`.  Otherwise the C program has overrun `_buf`
(undefined behaviour): `ret`, `buf` and `sys` are then those of a flat memory
in which the bytes beyond `_buf` are where the transport put them, and they
say nothing reliable about the C program. -/
structure ReadRun (σ : Type) where
  ret : Int
  buf : List Nat
  sys : Sys σ
  stored : Nat
  reads : List Nat

/-- The body of `ddcci_read(fd, addr, buf, len)`, with its accesses to `_buf`.
The header tests, the checksum fold and the payload copy compute their values
from the indices they report. -/
def ddcci_read_run {σ : Type} (T : Transport σ) (s : Sys σ) (addr : Nat) (buf : List Nat)
    (len : Nat) : ReadRun σ :=
  let count := (len + 3) % 256
  let r := i2c_read T s addr count
  let rbuf := r.2.1
  let first := 0
  let marker := 1
  if r.1 ≤ 0 then ⟨-1, buf, r.2.2, count, []⟩
  else if rbuf.getD first 0 = 0x51 ∨ rbuf.getD first 0 = 0xff then
    ⟨-1, buf, r.2.2, count, [first]⟩
  else if rbuf.getD first 0 ≠ (addr * 2) % 2 ^ 32 then
    ⟨-1, buf, r.2.2, count, [first] ++ dumphex_reads MAX_BYTES⟩
  else if rbuf.getD marker 0 &&& MAGIC_2 = 0 then ⟨-1, buf, r.2.2, count, [first, marker]⟩
  else
    let n := rbuf.getD marker 0 &&& 0x7f
    if n > len ∨ n > MAX_BYTES then ⟨-1, buf, r.2.2, count, [first, marker]⟩
    else
      let foldIdx := List.range (n + 3)
      if foldIdx.foldl (fun xor i => (xor ^^^ rbuf.getD i 0) % 256) MAGIC_XOR ≠ 0 then
        ⟨-1, buf, r.2.2, count, [first, marker] ++ foldIdx ++ foldIdx⟩
      else
        let copyIdx := (List.range n).map (fun i => 2 + i)
        ⟨(n : Int), copyIdx.map (fun i => rbuf.getD i 0) ++ buf.drop n, r.2.2, count,
          [first, marker] ++ foldIdx ++ copyIdx⟩

/-- `ddcci_read(fd, addr, buf, len)`: result, the caller's buffer `buf` after
the call, and the new state. -/
def ddcci_read {σ : Type} (T : Transport σ) (s : Sys σ) (addr : Nat) (buf : List Nat)
    (len : Nat) : Int × List Nat × Sys σ :=
  ((ddcci_read_run T s addr buf len).ret, (ddcci_read_run T s addr buf len).buf,
    (ddcci_read_run T s addr buf len).sys)

/-! ## Command builders -/

/-- `ddcci_writectrl(fd, addr, ctrl, value)`. -/
def ddcci_writectrl {σ : Type} (T : Transport σ) (s : Sys σ) (addr ctrl value : Nat) :
    Int × Sys σ :=
  ddcci_write T s addr [DDCCI_COMMAND_WRITE, ctrl, (value >>> 8) % 256, value &&& 255] 4

/-- `ddcci_readctrl(fd, addr, ctrl, buf, len)`. -/
def ddcci_readctrl {σ : Type} (T : Transport σ) (s : Sys σ) (addr ctrl : Nat)
    (buf : List Nat) (len : Nat) : Int × List Nat × Sys σ :=
  let w := ddcci_write T s addr [DDCCI_COMMAND_READ, ctrl] 2
  if w.1 < 0 then (-1, buf, w.2)
  else ddcci_read T (usleep w.2 DELAY) addr buf len

/-- `ddcci_caps(fd, addr, offset, buf, len)`. -/
def ddcci_caps {σ : Type} (T : Transport σ) (s : Sys σ) (addr offset : Nat)
    (buf : List Nat) (len : Nat) : Int × List Nat × Sys σ :=
  let w := ddcci_write T s addr [DDCCI_COMMAND_CAPS, (offset >>> 8) % 256, offset &&& 255] 3
  if w.1 < 0 then (-1, buf, w.2)
  else ddcci_read T (usleep w.2 DELAY) addr buf len

/-- `ddcci_dumpctrl(fd, addr, ctrl, force)`; `force` is the C truth value of
the flag.  The local `buf[8]` starts out unspecified (zeros here); it is read
only when `ddcci_readctrl` returned 8, that is after all 8 bytes were copied. -/
def ddcci_dumpctrl {σ : Type} (T : Transport σ) (s : Sys σ) (addr ctrl : Nat)
    (force : Bool) : Int × Sys σ :=
  let r := ddcci_readctrl T s addr ctrl (List.replicate 8 0) 8
  let buf := r.2.1
  if r.1 = 8 ∧ buf.getD 0 0 = DDCCI_REPLY_READ ∧ buf.getD 2 0 = ctrl ∧
      (force = true ∨ buf.getD 1 0 = 0) then
    (r.1, ⟨r.2.2.dev, r.2.2.trace ++
      [Event.printCtrl ctrl (buf.getD 1 0) (buf.getD 6 0 * 256 + buf.getD 7 0)
        (buf.getD 4 0 * 256 + buf.getD 5 0)]⟩)
  else (r.1, r.2.2)

/-! ## Retry loops of `main` -/

/-- The loop
`for (retry = n; retry && ((len = op()) < 0); retry--) usleep(DELAY);`
for an arbitrary guarded operation `op` on a state `α`; `delay` is the loop
body.  The result is the final value of `len`, the final state, and the number
of times `op` was invoked (a ghost counter, not a program variable). -/
def retry_loop {α : Type} (op : α → Int × α) (delay : α → α) :
    Nat → Int → α → Int × α × Nat
  | 0, len, a => (len, a, 0)
  | retry + 1, _, a =>
    let r := op a
    if r.1 < 0 then
      let t := retry_loop op delay retry r.1 (delay r.2)
      (t.1, t.2.1, t.2.2 + 1)
    else (r.1, r.2, 1)

/-- Lines 559-560 of `main`: the guarded capabilities request for `offset`,
`buf` being the 35-byte chunk buffer and `len` the previous value of `len`. -/
def caps_retry {σ : Type} (T : Transport σ) (addr offset : Nat) (len : Int)
    (buf : List Nat) (s : Sys σ) : Int × (List Nat × Sys σ) × Nat :=
  retry_loop (fun st => let r := ddcci_caps T st.2 addr offset st.1 35; (r.1, (r.2.1, r.2.2)))
    (fun st => (st.1, usleep st.2 DELAY)) RETRYS len (buf, s)

/-- Lines 589-590 and 596-597 of `main`: the guarded control read. -/
def ctrl_retry {σ : Type} (T : Transport σ) (addr ctrl : Nat) (force : Bool)
    (s : Sys σ) : Int × Sys σ × Nat :=
  retry_loop (fun st => ddcci_dumpctrl T st addr ctrl force)
    (fun st => usleep st DELAY) RETRYS 0 s

/-! ## A simulated transport -/

/-- State of the simulated transport: the results of the coming write `ioctl`s
and the results and buffer contents of the coming read `ioctl`s. -/
structure Script where
  writes : List Int
  reads : List (Int × List Nat)

/-- The simulated transport replays its script; an exhausted script fails. -/
def scripted : Transport Script where
  ioctlWrite d _ _ :=
    match d.writes with
    | [] => (-1, d)
    | r :: rs => (r, ⟨rs, d.reads⟩)
  ioctlRead d _ _ :=
    match d.reads with
    | [] => (-1, [], d)
    | (r, b) :: rs => (r, b, ⟨d.writes, rs⟩)

/-- A transport on which every `ioctl` fails (no device on the bus). -/
def unplugged : Transport Unit where
  ioctlWrite _ _ _ := (-1, ())
  ioctlRead _ _ _ := (-1, [], ())

/-- Number of write messages in a trace. -/
def countWrites (tr : List Event) : Nat :=
  (tr.filter (fun e => match e with | Event.i2cWrite _ _ => true | _ => false)).length

/-- Number of read messages in a trace. -/
def countReads (tr : List Event) : Nat :=
  (tr.filter (fun e => match e with | Event.i2cRead _ _ => true | _ => false)).length

/-- Exclusive-or fold of a byte list from a start value. -/
def xorFold (x : Nat) (l : List Nat) : Nat := l.foldl (fun a b => a ^^^ b) x

/-- The validation steps of `ddcci_read` on the contents `rbuf` of `_buf` after a
successful transport read: `some n` when the frame is accepted with declared
length `n`, `none` when one of the five checks returns `-1`.  (An auxiliary
view of `ddcci_read`, linked to it by `ddcci_read_eq`.) -/
def ddcci_read_check (addr : Nat) (rbuf : List Nat) (len : Nat) : Option Nat :=
  if rbuf.getD 0 0 = 0x51 ∨ rbuf.getD 0 0 = 0xff then none
  else if rbuf.getD 0 0 ≠ (addr * 2) % 2 ^ 32 then none
  else if rbuf.getD 1 0 &&& MAGIC_2 = 0 then none
  else if rbuf.getD 1 0 &&& 0x7f > len ∨ rbuf.getD 1 0 &&& 0x7f > MAX_BYTES then none
  else if ddcci_read_xor rbuf ((rbuf.getD 1 0 &&& 0x7f) + 3) ≠ 0 then none
  else some (rbuf.getD 1 0 &&& 0x7f)

/-- The state in which the `i`-th invocation (counting from 0) of the guarded
operation of a retry loop runs, provided all earlier invocations failed: after
each failure the loop body `delay` is executed. -/
def attemptState {α : Type} (op : α → Int × α) (delay : α → α) (a : α) : Nat → α
  | 0 => a
  | i + 1 => delay (op (attemptState op delay a i)).2

/-! ## The capabilities loop of `main` -/

/-- The variables of the capabilities loop (lines 553-574 of `main`):
`offset`, `len`, the chunk buffer `buf[35]`, and the outside world. -/
structure CapsState (σ : Type) where
  offset : Nat
  len : Int
  buf : List Nat
  sys : Sys σ

/-- The loop `for (i = 3; i < len; i++) fprintf(stdout, ..., buf[i]);`. -/
def caps_print {σ : Type} (s : Sys σ) (buf : List Nat) (len : Int) : Sys σ :=
  ⟨s.dev, s.trace ++
    (List.range (len.toNat - 3)).map (fun j => Event.printCaps (buf.getD (3 + j) 0))⟩

/-- One pass through the body of the `do ... while (len > 3)` loop: the guarded
capabilities request, the sequence check (`break` on failure), the printing of
the data bytes and `offset += len - 3`.  The Boolean is `true` when the loop
goes on to another pass, `false` after `break` or when `len > 3` fails. -/
def caps_pass {σ : Type} (T : Transport σ) (addr : Nat) (c : CapsState σ) :
    Bool × CapsState σ :=
  let r := caps_retry T addr c.offset c.len c.buf c.sys
  let len := r.1
  let buf := r.2.1.1
  if len < 3 ∨ buf.getD 0 0 ≠ DDCCI_REPLY_CAPS ∨
      buf.getD 1 0 * 256 + buf.getD 2 0 ≠ c.offset then
    (false, ⟨c.offset, len, buf, r.2.1.2⟩)
  else
    (decide (len > 3), ⟨c.offset + (len - 3).toNat, len, buf, caps_print r.2.1.2 buf len⟩)

/-- The `do ... while (len > 3)` loop, run for at most `fuel` passes: `none`
when the loop is still running after `fuel` passes, the final variables
otherwise. -/
def caps_loop {σ : Type} (T : Transport σ) (addr : Nat) : Nat → CapsState σ →
    Option (CapsState σ)
  | 0, _ => none
  | fuel + 1, c =>
    let r := caps_pass T addr c
    if r.1 then caps_loop T addr fuel r.2 else some r.2

/-- The variables on entry to the loop: `offset = 0`; `len` and `buf` are
not initialised in C (zeros here): `len` is assigned by the first guarded
request and `buf[i]` is read only for `i < len`. -/
def caps_init {σ : Type} (s : Sys σ) : CapsState σ :=
  ⟨0, 0, List.replicate 35 0, s⟩

/-! ## Observations on traces and simulated devices -/

/-- The capability data bytes printed in a trace, in order. -/
def capsOutput (tr : List Event) : List Nat :=
  tr.filterMap (fun e => match e with | Event.printCaps b => some b | _ => none)

/-- The request frame `ddcci_caps` builds for `offset`. -/
def capsRequest (addr offset : Nat) : List Nat :=
  ddcci_write_buf addr [DDCCI_COMMAND_CAPS, (offset >>> 8) % 256, offset &&& 255] 3

/-- The request frame `ddcci_readctrl` builds for control `ctrl`. -/
def readRequest (addr ctrl : Nat) : List Nat :=
  ddcci_write_buf addr [DDCCI_COMMAND_READ, ctrl] 2

/-- Every write message of the trace segment `seg` hands the frame `frame` to
the peripheral `addr`. -/
def writesOnly (addr : Nat) (frame : List Nat) (seg : List Event) : Prop :=
  ∀ e ∈ seg, ∀ (a : Nat) (f : List Nat), e = Event.i2cWrite a f → a = addr ∧ f = frame

/-- Trace check: every write message of the trace is the capabilities request
for `k` plus the number of data bytes printed before it in the trace. -/
def requestsMatch (addr : Nat) : Nat → List Event → Bool
  | _, [] => true
  | k, e :: tr =>
    match e with
    | Event.i2cWrite a f =>
      decide (a = addr ∧ f = capsRequest addr k) && requestsMatch addr k tr
    | Event.printCaps _ => requestsMatch addr (k + 1) tr
    | _ => requestsMatch addr k tr

/-- A transport delivers bytes: every element it stores in a read buffer is
below 256 (the buffer is an `unsigned char` array). -/
def Transport.deliversBytes {σ : Type} (T : Transport σ) : Prop :=
  ∀ (d : σ) (a n y : Nat), y ∈ (T.ioctlRead d a n).2.1 → y < 256

/-- The inbound frame a device at address `addr` sends for `payload`:
`[addr*2, 0x80 | len, payload..., checksum]`, the checksum folding from `0x50`. -/
def inboundFrame (addr : Nat) (payload : List Nat) : List Nat :=
  [addr * 2, 0x80 ||| payload.length] ++ payload ++
    [xorFold (0x50 ^^^ (addr * 2) ^^^ (0x80 ||| payload.length)) payload]

/-- The read script of a simulated device that answers successive capabilities
requests, starting at `offset`, with the chunks `chunks` (each reply echoing
the offset reached so far) and then with one reply carrying no data. -/
def capsReplies (addr : Nat) : Nat → List (List Nat) → List (Int × List Nat)
  | offset, [] => [(1, inboundFrame addr [DDCCI_REPLY_CAPS, offset / 256, offset % 256])]
  | offset, c :: cs =>
    (1, inboundFrame addr ([DDCCI_REPLY_CAPS, offset / 256, offset % 256] ++ c)) ::
      capsReplies addr (offset + c.length) cs

/-- A misbehaving simulated device: it remembers the offset field of the last
request frame written to it and answers every read with a well-formed
capabilities reply that echoes this offset and carries the single data byte
`0x41`; it never sends a terminal chunk. -/
def babbler : Transport Nat where
  ioctlWrite _ _ f := (1, f.getD 3 0 * 256 + f.getD 4 0)
  ioctlRead d a _ :=
    (1, (inboundFrame a [DDCCI_REPLY_CAPS, d / 256, d % 256, 0x41]).map (fun y => y % 256), d)

/-! ## Auxiliary facts -/

theorem memcpy_drop (dst src : List Nat) (k n : Nat) :
    ((List.range n).map (fun i => k + i)).map (fun i => src.getD i 0) ++ dst.drop n =
      memcpy dst (src.drop k) n := by
  simp only [memcpy, List.map_map]
  congr 1
  apply List.map_congr_left
  intro i _
  simp only [Function.comp, List.getD_eq_getElem?_getD, List.getElem?_drop]

theorem range_map_getD (pre data rest : List Nat) :
    (List.range data.length).map (fun j => (pre ++ data ++ rest).getD (pre.length + j) 0) =
      data := by
  apply List.ext_getElem
  · simp
  · intro i h1 h2
    simp only [List.getElem_map, List.getElem_range, List.getD_eq_getElem?_getD]
    rw [List.append_assoc, List.getElem?_append_right (by omega)]
    simp only [Nat.add_sub_cancel_left]
    rw [List.getElem?_append_left h2, List.getElem?_eq_getElem h2]
    rfl

theorem memcpy_frame (dst : List Nat) (x y : Nat) (p rest : List Nat) :
    memcpy dst (([x, y] ++ p ++ rest).drop 2) p.length = p ++ dst.drop p.length := by
  rw [← memcpy_drop, List.map_map]
  congr 1
  exact range_map_getD [x, y] p rest

theorem ddcci_read_unfold {σ : Type} (T : Transport σ) (s : Sys σ) (addr : Nat)
    (buf : List Nat) (len : Nat) :
    ddcci_read T s addr buf len =
      if (i2c_read T s addr ((len + 3) % 256)).1 ≤ 0 ∨
          (i2c_read T s addr ((len + 3) % 256)).2.1.getD 0 0 = 0x51 ∨
          (i2c_read T s addr ((len + 3) % 256)).2.1.getD 0 0 = 0xff then
        (-1, buf, (i2c_read T s addr ((len + 3) % 256)).2.2)
      else if (i2c_read T s addr ((len + 3) % 256)).2.1.getD 0 0 ≠ (addr * 2) % 2 ^ 32 then
        (-1, buf, (i2c_read T s addr ((len + 3) % 256)).2.2)
      else if (i2c_read T s addr ((len + 3) % 256)).2.1.getD 1 0 &&& MAGIC_2 = 0 then
        (-1, buf, (i2c_read T s addr ((len + 3) % 256)).2.2)
      else if (i2c_read T s addr ((len + 3) % 256)).2.1.getD 1 0 &&& 0x7f > len ∨
          (i2c_read T s addr ((len + 3) % 256)).2.1.getD 1 0 &&& 0x7f > MAX_BYTES then
        (-1, buf, (i2c_read T s addr ((len + 3) % 256)).2.2)
      else if ddcci_read_xor (i2c_read T s addr ((len + 3) % 256)).2.1
          (((i2c_read T s addr ((len + 3) % 256)).2.1.getD 1 0 &&& 0x7f) + 3) ≠ 0 then
        (-1, buf, (i2c_read T s addr ((len + 3) % 256)).2.2)
      else ((((i2c_read T s addr ((len + 3) % 256)).2.1.getD 1 0 &&& 0x7f : Nat) : Int),
        memcpy buf ((i2c_read T s addr ((len + 3) % 256)).2.1.drop 2)
          ((i2c_read T s addr ((len + 3) % 256)).2.1.getD 1 0 &&& 0x7f),
        (i2c_read T s addr ((len + 3) % 256)).2.2) := by
  unfold ddcci_read ddcci_read_run
  simp only [ddcci_read_xor, ← memcpy_drop]
  split_ifs <;> ((try simp_all); (try omega))

theorem xorFold_nil (x : Nat) : xorFold x [] = x := rfl

theorem xorFold_cons (x y : Nat) (l : List Nat) : xorFold x (y :: l) = xorFold (x ^^^ y) l := rfl

theorem xorFold_append (x : Nat) (l m : List Nat) :
    xorFold x (l ++ m) = xorFold (xorFold x l) m := by
  simp [xorFold, List.foldl_append]

theorem xorFold_lt (l : List Nat) (hl : ∀ y ∈ l, y < 256) :
    ∀ x, x < 256 → xorFold x l < 256 := by
  induction l with
  | nil => intro x hx; simpa [xorFold] using hx
  | cons y l ih =>
    intro x hx
    rw [xorFold_cons]
    apply ih (fun z hz => hl z (List.mem_cons_of_mem _ hz))
    exact Nat.xor_lt_two_pow (n := 8) hx (hl y (List.mem_cons_self _ _))

theorem xorFold_xor (l : List Nat) : ∀ x y, xorFold (x ^^^ y) l = xorFold x l ^^^ y := by
  induction l with
  | nil => intro x y; rfl
  | cons z l ih =>
    intro x y
    rw [xorFold_cons, xorFold_cons, ← ih]
    congr 1
    rw [Nat.xor_assoc, Nat.xor_comm y z, ← Nat.xor_assoc]

theorem ddcci_write_loop_eq (p : List Nat) :
    ∀ (rest : List Nat) (x : Nat) (out : List Nat),
      ddcci_write_loop p.length (p ++ rest) x out = (xorFold x p, out ++ p) := by
  induction p with
  | nil => intro rest x out; simp [ddcci_write_loop, xorFold]
  | cons y p ih =>
    intro rest x out
    simp only [List.length_cons, List.cons_append, ddcci_write_loop, List.tail_cons,
      List.headD_cons]
    rw [ih, xorFold_cons]
    simp

theorem ddcci_write_buf_eq (a : Nat) (p : List Nat) (ha : a < 128) (hlen : p.length ≤ 127)
    (hp : ∀ y ∈ p, y < 256) :
    ddcci_write_buf a p p.length =
      [0x51, 0x80 ||| p.length] ++ p ++
        [xorFold ((a <<< 1) ^^^ 0x51 ^^^ (0x80 ||| p.length)) p] := by
  have hor : 0x80 ||| p.length < 256 :=
    Nat.or_lt_two_pow (n := 8) (by norm_num) (by omega)
  have ha1 : a <<< 1 < 256 := by rw [Nat.shiftLeft_eq]; omega
  have hx : (a <<< 1) ^^^ 0x51 ^^^ (0x80 ||| p.length) < 256 :=
    Nat.xor_lt_two_pow (n := 8) (Nat.xor_lt_two_pow (n := 8) ha1 (by norm_num)) hor
  have hf := xorFold_lt p hp _ hx
  have h := ddcci_write_loop_eq p [] ((a <<< 1) ^^^ 0x51 ^^^ (0x80 ||| p.length))
    [0x51, 0x80 ||| p.length]
  rw [List.append_nil] at h
  simp only [ddcci_write_buf, MAGIC_1, MAGIC_2, Nat.mod_eq_of_lt hor,
    Nat.mod_eq_of_lt (show a < 256 by omega), h, Nat.mod_eq_of_lt hf]

theorem take_succ_getD (b : List Nat) (n : Nat) (x : Nat) :
    xorFold x (b.take (n + 1)) = xorFold x (b.take n) ^^^ b.getD n 0 := by
  rw [List.take_succ, xorFold_append]
  cases h : b[n]? with
  | none => simp [xorFold, List.getD_eq_getElem?_getD, h]
  | some y => simp [xorFold, List.getD_eq_getElem?_getD, h]

theorem ddcci_read_xor_eq (b : List Nat) (hb : ∀ y ∈ b, y < 256) (n : Nat) :
    ddcci_read_xor b n = xorFold 0x50 (b.take n) := by
  induction n with
  | zero => simp [ddcci_read_xor, xorFold, MAGIC_XOR]
  | succ n ih =>
    have hlt : xorFold 0x50 (b.take (n + 1)) < 256 :=
      xorFold_lt _ (fun y hy => hb y (List.mem_of_mem_take hy)) _ (by norm_num)
    unfold ddcci_read_xor at ih ⊢
    rw [List.range_succ, List.foldl_append, ih]
    simp only [List.foldl_cons, List.foldl_nil]
    rw [← take_succ_getD, Nat.mod_eq_of_lt hlt]

theorem and_7f_le (x : Nat) : x &&& 0x7f ≤ 127 := Nat.and_le_right

theorem marker_bits : ∀ n, n < 128 →
    (0x80 ||| n) &&& 0x80 = 0x80 ∧ (0x80 ||| n) &&& 0x7f = n := by
  decide

theorem ddcci_read_eq {σ : Type} (T : Transport σ) (s : Sys σ) (a : Nat) (buf : List Nat)
    (L : Nat) (r : Int) (b : List Nat) (d : σ)
    (hT : T.ioctlRead s.dev a ((L + 3) % 256) = (r, b, d)) (hr : 0 < r) :
    ddcci_read T s a buf L =
      match ddcci_read_check a b L with
      | none => (-1, buf, ⟨d, s.trace ++ [Event.i2cRead a ((L + 3) % 256)]⟩)
      | some n => ((n : Int), memcpy buf (b.drop 2) n,
          ⟨d, s.trace ++ [Event.i2cRead a ((L + 3) % 256)]⟩) := by
  have h1 : ¬ r < 0 := by omega
  have h2 : ¬ r ≤ 0 := by omega
  simp only [ddcci_read_unfold, i2c_read, hT, h1, if_false, h2, false_or, ddcci_read_check]
  split_ifs <;> simp_all

theorem ddcci_read_check_iff (a : Nat) (b : List Nat) (L n : Nat) (ha : a < 128)
    (hb : ∀ y ∈ b, y < 256) :
    ddcci_read_check a b L = some n ↔
      (b.getD 0 0 = a * 2 ∧ b.getD 1 0 &&& 0x80 ≠ 0 ∧ n = b.getD 1 0 &&& 0x7f ∧ n ≤ L ∧
        xorFold 0x50 (b.take (n + 3)) = 0) := by
  have hmod : a * 2 % 2 ^ 32 = a * 2 := Nat.mod_eq_of_lt (by omega)
  have h7 := and_7f_le (b.getD 1 0)
  simp only [ddcci_read_check, hmod, MAGIC_2, MAX_BYTES, ddcci_read_xor_eq b hb]
  constructor
  · intro h
    split_ifs at h with c1 c2 c3 c4 c5
    simp only [Option.some.injEq] at h
    subst h
    refine ⟨by simpa using c2, c3, rfl, by omega, by simpa using c5⟩
  · rintro ⟨h0, h1, hn, hL, hx⟩
    subst hn
    have c1 : ¬ (b.getD 0 0 = 0x51 ∨ b.getD 0 0 = 0xff) := by omega
    rw [if_neg c1, if_neg (by simpa using h0), if_neg h1, if_neg (by omega),
      if_neg (by simpa using hx)]

theorem ddcci_write_trace {σ : Type} (T : Transport σ) (s : Sys σ) (a : Nat) (p : List Nat)
    (ha : a < 128) (hlen : p.length ≤ 127) (hp : ∀ y ∈ p, y < 256) :
    ddcci_write T s a p p.length =
      i2c_write T s a ([0x51, 0x80 ||| p.length] ++ p ++
        [xorFold ((a <<< 1) ^^^ 0x51 ^^^ (0x80 ||| p.length)) p]) (p.length + 3) := by
  simp only [ddcci_write, ddcci_write_buf_eq a p ha hlen hp]
  have hl : ([0x51, 0x80 ||| p.length] ++ p ++
      [xorFold ((a <<< 1) ^^^ 0x51 ^^^ (0x80 ||| p.length)) p]).length = p.length + 3 := by
    simp
  rw [hl, Nat.mod_eq_of_lt (by omega)]

theorem i2c_write_trace {σ : Type} (T : Transport σ) (s : Sys σ) (a : Nat) (f : List Nat)
    (n : Nat) (hn : f.length ≤ n) :
    (i2c_write T s a f n).2.trace = s.trace ++ [Event.i2cWrite a f] := by
  simp only [i2c_write, List.take_of_length_le hn]
  split_ifs <;> rfl

theorem ddcci_read_neg_iff {σ : Type} (T : Transport σ) (s : Sys σ) (a : Nat)
    (buf : List Nat) (L : Nat) (r : Int) (b : List Nat) (d : σ)
    (hT : T.ioctlRead s.dev a ((L + 3) % 256) = (r, b, d)) (hr : 0 < r) :
    ((ddcci_read T s a buf L).1 = -1 ↔ ddcci_read_check a b L = none) ∧
      (∀ n, ddcci_read_check a b L = some n →
        (ddcci_read T s a buf L).1 = (n : Int) ∧
          (ddcci_read T s a buf L).2.1 = memcpy buf (b.drop 2) n) := by
  rw [ddcci_read_eq T s a buf L r b d hT hr]
  cases h : ddcci_read_check a b L with
  | none => simp
  | some n =>
    refine ⟨?_, ?_⟩
    · simp only [reduceCtorEq, iff_false]
    · intro m hm
      simp only [Option.some.injEq] at hm
      subst hm
      exact ⟨rfl, rfl⟩

theorem flip_low_bit (x m : Nat) : (x ^^^ 0x51 ^^^ m) ^^^ 1 = 0x50 ^^^ x ^^^ m := by
  have h51 : (0x51 : Nat) = 0x50 ^^^ 1 := by decide
  have h : (x ^^^ (0x50 ^^^ 1) ^^^ m) ^^^ 1 = (0x50 ^^^ x ^^^ m) ^^^ (1 ^^^ 1) := by ac_rfl
  rw [h51, h, Nat.xor_self, Nat.xor_zero]

theorem reply_frame_check (a : Nat) (p : List Nat) (L : Nat) (ha : a < 128)
    (hlen : p.length ≤ 127) (hp : ∀ y ∈ p, y < 256) (hL : p.length ≤ L) :
    ddcci_read_check a ([a * 2, 0x80 ||| p.length] ++ p ++
      [xorFold (0x50 ^^^ (a * 2) ^^^ (0x80 ||| p.length)) p]) L = some p.length := by
  have hm := marker_bits p.length (by omega)
  have hor : 0x80 ||| p.length < 256 :=
    Nat.or_lt_two_pow (n := 8) (by norm_num) (by omega)
  have hx : 0x50 ^^^ (a * 2) ^^^ (0x80 ||| p.length) < 256 :=
    Nat.xor_lt_two_pow (n := 8)
      (Nat.xor_lt_two_pow (n := 8) (by norm_num) (by omega)) hor
  have hf := xorFold_lt p hp _ hx
  have hbytes : ∀ y ∈ [a * 2, 0x80 ||| p.length] ++ p ++
      [xorFold (0x50 ^^^ (a * 2) ^^^ (0x80 ||| p.length)) p], y < 256 := by
    intro y hy
    simp only [List.mem_append, List.mem_cons, List.mem_singleton, List.mem_nil_iff,
      or_false] at hy
    rcases hy with ((h | h) | h) | h
    · omega
    · omega
    · exact hp y h
    · omega
  rw [ddcci_read_check_iff a _ L p.length ha hbytes]
  have h1 : ([a * 2, 0x80 ||| p.length] ++ p ++
      [xorFold (0x50 ^^^ (a * 2) ^^^ (0x80 ||| p.length)) p]).getD 1 0 =
        0x80 ||| p.length := rfl
  have h0 : ([a * 2, 0x80 ||| p.length] ++ p ++
      [xorFold (0x50 ^^^ (a * 2) ^^^ (0x80 ||| p.length)) p]).getD 0 0 = a * 2 := rfl
  rw [h0, h1]
  refine ⟨rfl, by omega, by omega, hL, ?_⟩
  rw [List.take_of_length_le (by simp), xorFold_append, xorFold_append]
  simp [xorFold]

theorem ddcci_read_check_busy (a : Nat) (b : List Nat) (L : Nat)
    (h : b.getD 0 0 = 0x51 ∨ b.getD 0 0 = 0xff) : ddcci_read_check a b L = none := by
  simp only [ddcci_read_check, h, if_true]

theorem attemptState_succ {α : Type} (op : α → Int × α) (delay : α → α) (a : α) :
    ∀ i, attemptState op delay a (i + 1) = attemptState op delay (delay (op a).2) i := by
  intro i
  induction i with
  | zero => rfl
  | succ i ih =>
    show delay (op (attemptState op delay a (i + 1))).2 = _
    rw [ih]
    rfl

theorem retry_loop_success {α : Type} (op : α → Int × α) (delay : α → α) :
    ∀ (n k : Nat) (len0 : Int) (a : α), k < n →
      (∀ i, i < k → (op (attemptState op delay a i)).1 < 0) →
      0 ≤ (op (attemptState op delay a k)).1 →
      retry_loop op delay n len0 a =
        ((op (attemptState op delay a k)).1, (op (attemptState op delay a k)).2, k + 1) := by
  intro n
  induction n with
  | zero => intro k len0 a hk; omega
  | succ n ih =>
    intro k len0 a hk hfail hok
    cases k with
    | zero =>
      have h0 : ¬ (op a).1 < 0 := by
        have : 0 ≤ (op a).1 := hok
        omega
      simp only [retry_loop, h0, if_false]
      rfl
    | succ k =>
      have h0 : (op a).1 < 0 := hfail 0 (by omega)
      have hrec := ih k (op a).1 (delay (op a).2) (by omega)
        (fun i hi => by
          rw [← attemptState_succ]
          exact hfail (i + 1) (by omega))
        (by rw [← attemptState_succ]; exact hok)
      simp only [retry_loop, h0, if_true, hrec, attemptState_succ op delay a k]

theorem retry_loop_exhausted {α : Type} (op : α → Int × α) (delay : α → α) :
    ∀ (n : Nat) (len0 : Int) (a : α),
      (∀ i, i < n + 1 → (op (attemptState op delay a i)).1 < 0) →
      retry_loop op delay (n + 1) len0 a =
        ((op (attemptState op delay a n)).1, attemptState op delay a (n + 1), n + 1) := by
  intro n
  induction n with
  | zero =>
    intro len0 a hfail
    have h0 : (op a).1 < 0 := hfail 0 (by omega)
    simp only [retry_loop, h0, if_true]
    rfl
  | succ n ih =>
    intro len0 a hfail
    have h0 : (op a).1 < 0 := hfail 0 (by omega)
    have hrec := ih (op a).1 (delay (op a).2)
      (fun i hi => by
        rw [← attemptState_succ]
        exact hfail (i + 1) (by omega))
    rw [retry_loop]
    simp only [h0, if_true, hrec, attemptState_succ op delay a n,
      attemptState_succ op delay a (n + 1)]

theorem ddcci_write_loop_length :
    ∀ (len : Nat) (buf : List Nat) (x : Nat) (out : List Nat),
      (ddcci_write_loop len buf x out).2.length = out.length + len := by
  intro len
  induction len with
  | zero => intro buf x out; rfl
  | succ len ih =>
    intro buf x out
    rw [ddcci_write_loop, ih]
    simp only [List.length_append, List.length_singleton]
    omega

theorem ddcci_write_buf_length (a : Nat) (buf : List Nat) (len : Nat) :
    (ddcci_write_buf a buf len).length = len + 3 := by
  simp only [ddcci_write_buf, List.length_append, List.length_singleton,
    ddcci_write_loop_length, List.length_cons, List.length_nil]
  omega

theorem ddcci_write_failed {σ : Type} (T : Transport σ) (s : Sys σ) (a : Nat)
    (buf : List Nat) (len : Nat) (hlen : len ≤ 252)
    (hw : (T.ioctlWrite s.dev a (ddcci_write_buf a buf len)).1 < 0) :
    ddcci_write T s a buf len =
      (-1, ⟨(T.ioctlWrite s.dev a (ddcci_write_buf a buf len)).2,
        s.trace ++ [Event.i2cWrite a (ddcci_write_buf a buf len)]⟩) := by
  have hl := ddcci_write_buf_length a buf len
  have ht : (ddcci_write_buf a buf len).take ((ddcci_write_buf a buf len).length % 256) =
      ddcci_write_buf a buf len := by
    rw [hl, Nat.mod_eq_of_lt (by omega)]
    exact List.take_of_length_le (by omega)
  simp only [ddcci_write, i2c_write, ht, hw, if_true]

theorem getD_lt_256 (l : List Nat) (hl : ∀ y ∈ l, y < 256) (i : Nat) : l.getD i 0 < 256 := by
  rw [List.getD_eq_getElem?_getD]
  cases h : l[i]? with
  | none => simp
  | some y => exact hl y (List.getElem?_mem h)

theorem ddcci_dumpctrl_eq {σ : Type} (T : Transport σ) (s : Sys σ) (a c : Nat) (force : Bool)
    (len : Int) (reply : List Nat) (s1 : Sys σ)
    (hr : ddcci_readctrl T s a c (List.replicate 8 0) 8 = (len, reply, s1)) :
    ddcci_dumpctrl T s a c force =
      if len = 8 ∧ reply.getD 0 0 = 0x02 ∧ reply.getD 2 0 = c ∧
          (force = true ∨ reply.getD 1 0 = 0) then
        (len, ⟨s1.dev, s1.trace ++ [Event.printCtrl c (reply.getD 1 0)
          (reply.getD 6 0 * 256 + reply.getD 7 0) (reply.getD 4 0 * 256 + reply.getD 5 0)]⟩)
      else (len, s1) := by
  simp only [ddcci_dumpctrl, hr, DDCCI_REPLY_READ]

theorem ddcci_dumpctrl_result {σ : Type} (T : Transport σ) (s : Sys σ) (a c : Nat)
    (force : Bool) :
    (ddcci_dumpctrl T s a c force).1 = (ddcci_readctrl T s a c (List.replicate 8 0) 8).1 := by
  simp only [ddcci_dumpctrl]
  split_ifs <;> rfl

/-! ### Traces -/

theorem capsOutput_append (x y : List Event) :
    capsOutput (x ++ y) = capsOutput x ++ capsOutput y := by
  simp [capsOutput, List.filterMap_append]

theorem countWrites_append (x y : List Event) :
    countWrites (x ++ y) = countWrites x + countWrites y := by
  simp [countWrites, List.filter_append]

theorem requestsMatch_append (a : Nat) (x : List Event) :
    ∀ (k : Nat) (y : List Event),
      requestsMatch a k (x ++ y) =
        (requestsMatch a k x && requestsMatch a (k + (capsOutput x).length) y) := by
  induction x with
  | nil => intro k y; simp [requestsMatch, capsOutput]
  | cons e x ih =>
    intro k y
    cases e with
    | i2cWrite a' f =>
      show (decide (a' = a ∧ f = capsRequest a k) && requestsMatch a k (x ++ y)) =
        ((decide (a' = a ∧ f = capsRequest a k) && requestsMatch a k x) &&
          requestsMatch a (k + (capsOutput x).length) y)
      rw [ih, Bool.and_assoc]
    | i2cRead a' n => exact ih k y
    | usleep us => exact ih k y
    | printCtrl c v cur mx => exact ih k y
    | printCaps b =>
      show requestsMatch a (k + 1) (x ++ y) =
        (requestsMatch a (k + 1) x && requestsMatch a (k + ((capsOutput x).length + 1)) y)
      rw [ih, Nat.add_assoc, Nat.add_comm 1]

theorem countReads_append (x y : List Event) :
    countReads (x ++ y) = countReads x + countReads y := by
  simp [countReads, List.filter_append]

theorem capsOutput_prints (l : List Nat) : capsOutput (l.map Event.printCaps) = l := by
  induction l with
  | nil => rfl
  | cons x l ih =>
    simp only [List.map_cons, capsOutput, List.filterMap_cons] at ih ⊢
    rw [ih]

theorem countReads_prints (l : List Nat) : countReads (l.map Event.printCaps) = 0 := by
  induction l with
  | nil => rfl
  | cons x l ih =>
    simp only [List.map_cons, countReads, List.filter_cons] at ih ⊢
    exact ih

theorem prints_capsOutput (f : Nat → Nat) (l : List Nat) :
    capsOutput (l.map (fun j => Event.printCaps (f j))) = l.map f := by
  induction l with
  | nil => rfl
  | cons x l ih =>
    simp only [List.map_cons, capsOutput, List.filterMap_cons] at ih ⊢
    rw [ih]

theorem prints_countWrites (f : Nat → Nat) (l : List Nat) :
    countWrites (l.map (fun j => Event.printCaps (f j))) = 0 := by
  induction l with
  | nil => rfl
  | cons x l ih =>
    simp only [List.map_cons, countWrites, List.filter_cons] at ih ⊢
    exact ih

theorem prints_requestsMatch (a : Nat) (f : Nat → Nat) (l : List Nat) :
    ∀ k, requestsMatch a k (l.map (fun j => Event.printCaps (f j))) = true := by
  induction l with
  | nil => intro k; rfl
  | cons x l ih =>
    intro k
    simp only [List.map_cons, requestsMatch]
    exact ih (k + 1)

theorem i2c_read_buf {σ : Type} (T : Transport σ) (s : Sys σ) (a n : Nat) :
    (i2c_read T s a n).2.1 = (T.ioctlRead s.dev a n).2.1 := by
  simp only [i2c_read]
  split_ifs <;> rfl

theorem ddcci_write_trace_any {σ : Type} (T : Transport σ) (s : Sys σ) (a : Nat)
    (buf : List Nat) (len : Nat) (hlen : len ≤ 252) :
    (ddcci_write T s a buf len).2.trace =
      s.trace ++ [Event.i2cWrite a (ddcci_write_buf a buf len)] := by
  have hl := ddcci_write_buf_length a buf len
  have ht : (ddcci_write_buf a buf len).take ((ddcci_write_buf a buf len).length % 256) =
      ddcci_write_buf a buf len := by
    rw [hl, Nat.mod_eq_of_lt (by omega)]
    exact List.take_of_length_le (by omega)
  simp only [ddcci_write, i2c_write, ht]
  split_ifs <;> rfl

theorem ddcci_read_trace {σ : Type} (T : Transport σ) (s : Sys σ) (a : Nat)
    (buf : List Nat) (L : Nat) :
    (ddcci_read T s a buf L).2.2.trace = s.trace ++ [Event.i2cRead a ((L + 3) % 256)] := by
  have h : (i2c_read T s a ((L + 3) % 256)).2.2.trace =
      s.trace ++ [Event.i2cRead a ((L + 3) % 256)] := by
    simp only [i2c_read]
    split_ifs <;> rfl
  simp only [ddcci_read_unfold]
  split_ifs <;> exact h

theorem ddcci_read_bytes {σ : Type} (T : Transport σ) (hT : T.deliversBytes) (s : Sys σ)
    (a : Nat) (buf : List Nat) (L : Nat) (hb : ∀ y ∈ buf, y < 256) :
    ∀ y ∈ (ddcci_read T s a buf L).2.1, y < 256 := by
  simp only [ddcci_read_unfold]
  split_ifs
  · exact hb
  · exact hb
  · exact hb
  · exact hb
  · exact hb
  · intro y hy
    simp only [memcpy, List.mem_append, List.mem_map] at hy
    rcases hy with ⟨i, _, rfl⟩ | h
    · apply getD_lt_256
      intro z hz
      have h1 := List.mem_of_mem_drop hz
      rw [i2c_read_buf] at h1
      exact hT _ _ _ _ h1
    · exact hb y (List.mem_of_mem_drop h)

theorem ddcci_caps_bytes {σ : Type} (T : Transport σ) (hT : T.deliversBytes) (s : Sys σ)
    (a off : Nat) (buf : List Nat) (L : Nat) (hb : ∀ y ∈ buf, y < 256) :
    ∀ y ∈ (ddcci_caps T s a off buf L).2.1, y < 256 := by
  simp only [ddcci_caps]
  split_ifs
  · exact hb
  · exact ddcci_read_bytes T hT _ a buf L hb

theorem ddcci_caps_trace {σ : Type} (T : Transport σ) (s : Sys σ) (a off : Nat)
    (buf : List Nat) (L : Nat) :
    ∃ seg, (ddcci_caps T s a off buf L).2.2.trace = s.trace ++ seg ∧
      requestsMatch a off seg = true ∧ capsOutput seg = [] ∧ countWrites seg = 1 := by
  have hw := ddcci_write_trace_any T s a
    [DDCCI_COMMAND_CAPS, (off >>> 8) % 256, off &&& 255] 3 (by omega)
  simp only [ddcci_caps]
  split_ifs
  · refine ⟨[Event.i2cWrite a (capsRequest a off)], ?_, ?_, rfl, rfl⟩
    · exact hw
    · simp [requestsMatch]
  · refine ⟨[Event.i2cWrite a (capsRequest a off), Event.usleep DELAY,
      Event.i2cRead a ((L + 3) % 256)], ?_, ?_, rfl, rfl⟩
    · rw [ddcci_read_trace]
      simp only [usleep, hw, capsRequest, List.append_assoc, List.cons_append,
        List.nil_append]
    · simp [requestsMatch]

/-! ### Retry loop, generically -/

theorem retry_loop_preserves {α : Type} (op : α → Int × α) (delay : α → α) (P : α → Prop)
    (hop : ∀ a, P a → P (op a).2) (hd : ∀ a, P a → P (delay a)) :
    ∀ (n : Nat) (len : Int) (a : α), P a → P (retry_loop op delay n len a).2.1 := by
  intro n
  induction n with
  | zero => intro len a h; exact h
  | succ n ih =>
    intro len a h
    simp only [retry_loop]
    split_ifs
    · exact ih _ _ (hd _ (hop _ h))
    · exact hop _ h

theorem retry_loop_measure {α : Type} (op : α → Int × α) (delay : α → α) (m : α → Nat)
    (hop : ∀ a, m (op a).2 ≤ m a + 1) (hd : ∀ a, m (delay a) ≤ m a) :
    ∀ (n : Nat) (len : Int) (a : α), m (retry_loop op delay n len a).2.1 ≤ m a + n := by
  intro n
  induction n with
  | zero => intro len a; exact Nat.le_refl _
  | succ n ih =>
    intro len a
    simp only [retry_loop]
    split_ifs
    · have h1 := ih (op a).1 (delay (op a).2)
      have h2 := hd (op a).2
      have h3 := hop a
      dsimp only
      omega
    · have h3 := hop a
      dsimp only
      omega

/-! ### The guarded capabilities request and the capabilities loop -/

theorem caps_retry_trace {σ : Type} (T : Transport σ) (a off : Nat) (len : Int)
    (buf : List Nat) (s : Sys σ) :
    ∃ seg, (caps_retry T a off len buf s).2.1.2.trace = s.trace ++ seg ∧
      requestsMatch a off seg = true ∧ capsOutput seg = [] := by
  apply retry_loop_preserves _ _
    (fun st : List Nat × Sys σ => ∃ seg, st.2.trace = s.trace ++ seg ∧
      requestsMatch a off seg = true ∧ capsOutput seg = [])
  · rintro st ⟨seg, h1, h2, h3⟩
    obtain ⟨seg1, g1, g2, g3, _⟩ := ddcci_caps_trace T st.2 a off st.1 35
    refine ⟨seg ++ seg1, ?_, ?_, ?_⟩
    · show (ddcci_caps T st.2 a off st.1 35).2.2.trace = _
      rw [g1, h1, List.append_assoc]
    · rw [requestsMatch_append, h2, h3]
      simpa using g2
    · rw [capsOutput_append, h3, g3]
      rfl
  · rintro st ⟨seg, h1, h2, h3⟩
    refine ⟨seg ++ [Event.usleep DELAY], ?_, ?_, ?_⟩
    · show (usleep st.2 DELAY).trace = _
      simp only [usleep, h1, List.append_assoc]
    · rw [requestsMatch_append, h2, h3]
      rfl
    · rw [capsOutput_append, h3]
      rfl
  · exact ⟨[], (List.append_nil _).symm, rfl, rfl⟩

theorem caps_retry_writes {σ : Type} (T : Transport σ) (a off : Nat) (len : Int)
    (buf : List Nat) (s : Sys σ) :
    countWrites (caps_retry T a off len buf s).2.1.2.trace ≤ countWrites s.trace + 3 := by
  apply retry_loop_measure _ _ (fun st : List Nat × Sys σ => countWrites st.2.trace)
  · intro st
    obtain ⟨seg1, g1, _, _, g4⟩ := ddcci_caps_trace T st.2 a off st.1 35
    show countWrites (ddcci_caps T st.2 a off st.1 35).2.2.trace ≤ _
    rw [g1, countWrites_append, g4]
  · intro st
    show countWrites (usleep st.2 DELAY).trace ≤ _
    simp only [usleep, countWrites_append]
    exact Nat.le_refl _

theorem caps_retry_bytes {σ : Type} (T : Transport σ) (hT : T.deliversBytes) (a off : Nat)
    (len : Int) (buf : List Nat) (s : Sys σ) (hb : ∀ y ∈ buf, y < 256) :
    ∀ y ∈ (caps_retry T a off len buf s).2.1.1, y < 256 := by
  apply retry_loop_preserves _ _ (fun st : List Nat × Sys σ => ∀ y ∈ st.1, y < 256)
  · intro st h
    exact ddcci_caps_bytes T hT st.2 a off st.1 35 h
  · intro st h
    exact h
  · exact hb

theorem caps_pass_break {σ : Type} (T : Transport σ) (a : Nat) (c : CapsState σ)
    (h : (caps_retry T a c.offset c.len c.buf c.sys).1 < 3 ∨
      (caps_retry T a c.offset c.len c.buf c.sys).2.1.1.getD 0 0 ≠ DDCCI_REPLY_CAPS ∨
      (caps_retry T a c.offset c.len c.buf c.sys).2.1.1.getD 1 0 * 256 +
        (caps_retry T a c.offset c.len c.buf c.sys).2.1.1.getD 2 0 ≠ c.offset) :
    caps_pass T a c = (false, ⟨c.offset, (caps_retry T a c.offset c.len c.buf c.sys).1,
      (caps_retry T a c.offset c.len c.buf c.sys).2.1.1,
      (caps_retry T a c.offset c.len c.buf c.sys).2.1.2⟩) := by
  simp only [caps_pass, h, if_true]

theorem caps_pass_accept {σ : Type} (T : Transport σ) (a : Nat) (c : CapsState σ)
    (h : ¬ ((caps_retry T a c.offset c.len c.buf c.sys).1 < 3 ∨
      (caps_retry T a c.offset c.len c.buf c.sys).2.1.1.getD 0 0 ≠ DDCCI_REPLY_CAPS ∨
      (caps_retry T a c.offset c.len c.buf c.sys).2.1.1.getD 1 0 * 256 +
        (caps_retry T a c.offset c.len c.buf c.sys).2.1.1.getD 2 0 ≠ c.offset)) :
    caps_pass T a c = (decide ((caps_retry T a c.offset c.len c.buf c.sys).1 > 3),
      ⟨c.offset + ((caps_retry T a c.offset c.len c.buf c.sys).1 - 3).toNat,
        (caps_retry T a c.offset c.len c.buf c.sys).1,
        (caps_retry T a c.offset c.len c.buf c.sys).2.1.1,
        caps_print (caps_retry T a c.offset c.len c.buf c.sys).2.1.2
          (caps_retry T a c.offset c.len c.buf c.sys).2.1.1
          (caps_retry T a c.offset c.len c.buf c.sys).1⟩) := by
  simp only [caps_pass, h, if_false]

theorem caps_pass_spec {σ : Type} (T : Transport σ) (a : Nat) (c : CapsState σ) :
    ∃ seg, (caps_pass T a c).2.sys.trace = c.sys.trace ++ seg ∧
      requestsMatch a c.offset seg = true ∧
      (caps_pass T a c).2.offset = c.offset + (capsOutput seg).length ∧
      countWrites seg ≤ 3 := by
  obtain ⟨seg, h1, h2, h3⟩ := caps_retry_trace T a c.offset c.len c.buf c.sys
  have h4 := caps_retry_writes T a c.offset c.len c.buf c.sys
  rw [h1, countWrites_append] at h4
  by_cases hc : (caps_retry T a c.offset c.len c.buf c.sys).1 < 3 ∨
      (caps_retry T a c.offset c.len c.buf c.sys).2.1.1.getD 0 0 ≠ DDCCI_REPLY_CAPS ∨
      (caps_retry T a c.offset c.len c.buf c.sys).2.1.1.getD 1 0 * 256 +
        (caps_retry T a c.offset c.len c.buf c.sys).2.1.1.getD 2 0 ≠ c.offset
  · rw [caps_pass_break T a c hc]
    refine ⟨seg, h1, h2, ?_, by omega⟩
    rw [h3]
    rfl
  · rw [caps_pass_accept T a c hc]
    refine ⟨seg ++ (List.range ((caps_retry T a c.offset c.len c.buf c.sys).1.toNat - 3)).map
      (fun j => Event.printCaps
        ((caps_retry T a c.offset c.len c.buf c.sys).2.1.1.getD (3 + j) 0)), ?_, ?_, ?_, ?_⟩
    · show (caps_print _ _ _).trace = _
      simp only [caps_print, h1, List.append_assoc]
    · rw [requestsMatch_append, h2, prints_requestsMatch]
      rfl
    · show c.offset + ((caps_retry T a c.offset c.len c.buf c.sys).1 - 3).toNat = _
      rw [capsOutput_append, h3, prints_capsOutput]
      simp only [List.nil_append, List.length_map, List.length_range]
      omega
    · rw [countWrites_append, prints_countWrites]
      omega

theorem caps_pass_bytes {σ : Type} (T : Transport σ) (hT : T.deliversBytes) (a : Nat)
    (c : CapsState σ) (hb : ∀ y ∈ c.buf, y < 256) :
    ∀ y ∈ (caps_pass T a c).2.buf, y < 256 := by
  have h := caps_retry_bytes T hT a c.offset c.len c.buf c.sys hb
  simp only [caps_pass]
  split_ifs <;> exact h

theorem caps_pass_continue {σ : Type} (T : Transport σ) (hT : T.deliversBytes) (a : Nat)
    (c : CapsState σ) (hb : ∀ y ∈ c.buf, y < 256) (hgo : (caps_pass T a c).1 = true) :
    c.offset ≤ 65535 ∧ c.offset < (caps_pass T a c).2.offset := by
  have h := caps_retry_bytes T hT a c.offset c.len c.buf c.sys hb
  have h1 := getD_lt_256 _ h 1
  have h2 := getD_lt_256 _ h 2
  by_cases hc : (caps_retry T a c.offset c.len c.buf c.sys).1 < 3 ∨
      (caps_retry T a c.offset c.len c.buf c.sys).2.1.1.getD 0 0 ≠ DDCCI_REPLY_CAPS ∨
      (caps_retry T a c.offset c.len c.buf c.sys).2.1.1.getD 1 0 * 256 +
        (caps_retry T a c.offset c.len c.buf c.sys).2.1.1.getD 2 0 ≠ c.offset
  · rw [caps_pass_break T a c hc] at hgo
    exact Bool.noConfusion hgo
  · rw [caps_pass_accept T a c hc] at hgo ⊢
    simp only [decide_eq_true_eq] at hgo
    simp only [not_or, not_lt, ne_eq, not_not] at hc
    refine ⟨by omega, ?_⟩
    show c.offset < c.offset + ((caps_retry T a c.offset c.len c.buf c.sys).1 - 3).toNat
    omega

theorem caps_loop_spec {σ : Type} (T : Transport σ) (hT : T.deliversBytes) (a : Nat) :
    ∀ (fuel : Nat) (c : CapsState σ), (∀ y ∈ c.buf, y < 256) → 65536 - c.offset < fuel →
      ∃ c' seg, caps_loop T a fuel c = some c' ∧ c'.sys.trace = c.sys.trace ++ seg ∧
        requestsMatch a c.offset seg = true ∧
        c'.offset = c.offset + (capsOutput seg).length ∧ countWrites seg ≤ 3 * fuel := by
  intro fuel
  induction fuel with
  | zero => intro c _ h; omega
  | succ fuel ih =>
    intro c hb hfuel
    obtain ⟨seg, p1, p2, p3, p4⟩ := caps_pass_spec T a c
    by_cases hgo : (caps_pass T a c).1 = true
    · obtain ⟨q1, q2⟩ := caps_pass_continue T hT a c hb hgo
      obtain ⟨c', seg', r1, r2, r3, r4, r5⟩ :=
        ih (caps_pass T a c).2 (caps_pass_bytes T hT a c hb) (by omega)
      refine ⟨c', seg ++ seg', ?_, ?_, ?_, ?_, ?_⟩
      · simp only [caps_loop, hgo, if_true]
        exact r1
      · rw [r2, p1, List.append_assoc]
      · rw [requestsMatch_append, p2, ← p3, r3]
        rfl
      · rw [r4, p3, capsOutput_append, List.length_append, Nat.add_assoc]
      · rw [countWrites_append]
        omega
    · refine ⟨(caps_pass T a c).2, seg, ?_, p1, p2, p3, by omega⟩
      simp only [caps_loop, hgo]
      rfl

/-! ### Replies of a well-behaved device -/

theorem inboundFrame_bytes (a : Nat) (p : List Nat) (ha : a < 128) (hlen : p.length ≤ 127)
    (hp : ∀ y ∈ p, y < 256) : ∀ y ∈ inboundFrame a p, y < 256 := by
  have hor : 0x80 ||| p.length < 256 :=
    Nat.or_lt_two_pow (n := 8) (by norm_num) (by omega)
  have hx : 0x50 ^^^ (a * 2) ^^^ (0x80 ||| p.length) < 256 :=
    Nat.xor_lt_two_pow (n := 8)
      (Nat.xor_lt_two_pow (n := 8) (by norm_num) (by omega)) hor
  have hf := xorFold_lt p hp _ hx
  intro y hy
  simp only [inboundFrame, List.mem_append, List.mem_cons, List.mem_singleton,
    List.mem_nil_iff, or_false] at hy
  rcases hy with ((h | h) | h) | h
  · omega
  · omega
  · exact hp y h
  · omega

theorem map_mod_bytes (l : List Nat) (h : ∀ y ∈ l, y < 256) :
    l.map (fun y => y % 256) = l := by
  induction l with
  | nil => rfl
  | cons x l ih =>
    rw [List.map_cons, ih (fun y hy => h y (List.mem_cons_of_mem _ hy)),
      Nat.mod_eq_of_lt (h x (List.mem_cons_self _ _))]

theorem babbler_deliversBytes : babbler.deliversBytes := by
  intro d a n y hy
  simp only [babbler, List.mem_map] at hy
  obtain ⟨x, _, rfl⟩ := hy
  exact Nat.mod_lt _ (by norm_num)

theorem ddcci_write_ok {σ : Type} (T : Transport σ) (s : Sys σ) (a : Nat)
    (buf : List Nat) (len : Nat) (hlen : len ≤ 252)
    (hw : 0 ≤ (T.ioctlWrite s.dev a (ddcci_write_buf a buf len)).1) :
    ddcci_write T s a buf len =
      ((T.ioctlWrite s.dev a (ddcci_write_buf a buf len)).1,
        ⟨(T.ioctlWrite s.dev a (ddcci_write_buf a buf len)).2,
          s.trace ++ [Event.i2cWrite a (ddcci_write_buf a buf len)]⟩) := by
  have hl := ddcci_write_buf_length a buf len
  have ht : (ddcci_write_buf a buf len).take ((ddcci_write_buf a buf len).length % 256) =
      ddcci_write_buf a buf len := by
    rw [hl, Nat.mod_eq_of_lt (by omega)]
    exact List.take_of_length_le (by omega)
  have hn : ¬ (T.ioctlWrite s.dev a (ddcci_write_buf a buf len)).1 < 0 := by omega
  simp only [ddcci_write, i2c_write, ht, hn, if_false]

theorem ddcci_caps_reply {σ : Type} (T : Transport σ) (s : Sys σ) (a off : Nat)
    (buf p : List Nat) (L : Nat) (r : Int) (d : σ) (ha : a < 128) (hlen : p.length ≤ 127)
    (hp : ∀ y ∈ p, y < 256) (hL : p.length ≤ L)
    (hw : 0 ≤ (T.ioctlWrite s.dev a (capsRequest a off)).1)
    (hT : T.ioctlRead (T.ioctlWrite s.dev a (capsRequest a off)).2 a ((L + 3) % 256) =
      (r, inboundFrame a p, d)) (hr : 0 < r) :
    ddcci_caps T s a off buf L =
      ((p.length : Int), p ++ buf.drop p.length,
        ⟨d, s.trace ++ [Event.i2cWrite a (capsRequest a off), Event.usleep DELAY,
          Event.i2cRead a ((L + 3) % 256)]⟩) := by
  unfold capsRequest at hw hT
  have hwr := ddcci_write_ok T s a [DDCCI_COMMAND_CAPS, (off >>> 8) % 256, off &&& 255] 3
    (by omega) hw
  have hn : ¬ (T.ioctlWrite s.dev a
      (ddcci_write_buf a [DDCCI_COMMAND_CAPS, (off >>> 8) % 256, off &&& 255] 3)).1 < 0 := by
    omega
  have hchk : ddcci_read_check a (inboundFrame a p) L = some p.length :=
    reply_frame_check a p L ha hlen hp hL
  simp only [ddcci_caps, hwr]
  rw [if_neg hn]
  rw [ddcci_read_eq T _ a buf L r (inboundFrame a p) d hT hr, hchk]
  have hm : memcpy buf ((inboundFrame a p).drop 2) p.length = p ++ buf.drop p.length :=
    memcpy_frame buf _ _ p _
  simp [hm, usleep, capsRequest]

theorem caps_retry_first {σ : Type} (T : Transport σ) (a off : Nat) (len : Int)
    (buf : List Nat) (s : Sys σ) (n : Int) (buf1 : List Nat) (s1 : Sys σ)
    (h : ddcci_caps T s a off buf 35 = (n, buf1, s1)) (hn : 0 ≤ n) :
    caps_retry T a off len buf s = (n, (buf1, s1), 1) := by
  have hneg : ¬ n < 0 := by omega
  simp only [caps_retry, RETRYS, retry_loop, h, hneg, if_false]

theorem caps_pass_chunk {σ : Type} (T : Transport σ) (a : Nat) (c : CapsState σ)
    (hi lo cnt : Nat) (data rest : List Nat) (s1 : Sys σ)
    (hret : caps_retry T a c.offset c.len c.buf c.sys =
      (((3 + data.length : Nat) : Int), ([DDCCI_REPLY_CAPS, hi, lo] ++ data ++ rest, s1), cnt))
    (hoff : hi * 256 + lo = c.offset) :
    caps_pass T a c = (decide (0 < data.length),
      ⟨c.offset + data.length, ((3 + data.length : Nat) : Int),
        [DDCCI_REPLY_CAPS, hi, lo] ++ data ++ rest,
        ⟨s1.dev, s1.trace ++ data.map Event.printCaps⟩⟩) := by
  have hc : ¬ ((((3 + data.length : Nat) : Int)) < 3 ∨
      ([DDCCI_REPLY_CAPS, hi, lo] ++ data ++ rest).getD 0 0 ≠ DDCCI_REPLY_CAPS ∨
      ([DDCCI_REPLY_CAPS, hi, lo] ++ data ++ rest).getD 1 0 * 256 +
        ([DDCCI_REPLY_CAPS, hi, lo] ++ data ++ rest).getD 2 0 ≠ c.offset) := by
    have e0 : ([DDCCI_REPLY_CAPS, hi, lo] ++ data ++ rest).getD 0 0 = DDCCI_REPLY_CAPS := rfl
    have e1 : ([DDCCI_REPLY_CAPS, hi, lo] ++ data ++ rest).getD 1 0 = hi := rfl
    have e2 : ([DDCCI_REPLY_CAPS, hi, lo] ++ data ++ rest).getD 2 0 = lo := rfl
    rw [e0, e1, e2]
    omega
  have hprint := range_map_getD [DDCCI_REPLY_CAPS, hi, lo] data rest
  have hcnt : ((3 + data.length : Nat) : Int).toNat - 3 = data.length := by omega
  have hadd : (((3 + data.length : Nat) : Int) - 3).toNat = data.length := by omega
  have hgt : (((3 + data.length : Nat) : Int) > 3) ↔ 0 < data.length := by omega
  have hmap : (List.range data.length).map (fun j => Event.printCaps
      (([DDCCI_REPLY_CAPS, hi, lo] ++ data ++ rest).getD (3 + j) 0)) =
        data.map Event.printCaps := by
    conv_rhs => rw [← hprint]
    rw [List.map_map]
    rfl
  simp only [caps_pass, hret, hc, if_false, caps_print, hcnt, hadd, hgt, hmap]

theorem caps_pass_reply {σ : Type} (T : Transport σ) (a : Nat) (c : CapsState σ)
    (data : List Nat) (r : Int) (d : σ) (ha : a < 128) (hd : data.length ≤ 32)
    (hdb : ∀ y ∈ data, y < 256) (hoff : c.offset ≤ 65535)
    (hw : 0 ≤ (T.ioctlWrite c.sys.dev a (capsRequest a c.offset)).1)
    (hT : T.ioctlRead (T.ioctlWrite c.sys.dev a (capsRequest a c.offset)).2 a
        ((35 + 3) % 256) =
      (r, inboundFrame a ([DDCCI_REPLY_CAPS, c.offset / 256, c.offset % 256] ++ data), d))
    (hr : 0 < r) :
    caps_pass T a c = (decide (0 < data.length),
      ⟨c.offset + data.length, ((3 + data.length : Nat) : Int),
        [DDCCI_REPLY_CAPS, c.offset / 256, c.offset % 256] ++ data ++
          c.buf.drop (3 + data.length),
        ⟨d, c.sys.trace ++ [Event.i2cWrite a (capsRequest a c.offset), Event.usleep DELAY,
          Event.i2cRead a ((35 + 3) % 256)] ++ data.map Event.printCaps⟩⟩) := by
  have hpl : ([DDCCI_REPLY_CAPS, c.offset / 256, c.offset % 256] ++ data).length =
      3 + data.length := by
    simp only [List.length_append, List.length_cons, List.length_nil]
  have hpb : ∀ y ∈ [DDCCI_REPLY_CAPS, c.offset / 256, c.offset % 256] ++ data, y < 256 := by
    intro y hy
    simp only [List.mem_append, List.mem_cons, List.mem_nil_iff, or_false,
      DDCCI_REPLY_CAPS] at hy
    rcases hy with (h | h | h) | h
    · omega
    · omega
    · omega
    · exact hdb y h
  have hcaps := ddcci_caps_reply T c.sys a c.offset c.buf
    ([DDCCI_REPLY_CAPS, c.offset / 256, c.offset % 256] ++ data) 35 r d ha (by omega) hpb
    (by omega) hw hT hr
  rw [hpl] at hcaps
  have hret := caps_retry_first T a c.offset c.len c.buf c.sys _ _ _ hcaps
    (Int.ofNat_nonneg _)
  exact caps_pass_chunk T a c (c.offset / 256) (c.offset % 256) 1 data
    (c.buf.drop (3 + data.length)) _ hret (Nat.div_add_mod' c.offset 256)

theorem capsRequest_offset (a k : Nat) (hk : k < 65536) :
    (capsRequest a k).getD 3 0 * 256 + (capsRequest a k).getD 4 0 = k := by
  have h8 : k >>> 8 = k / 256 := by rw [Nat.shiftRight_eq_div_pow]
  have h255 : k &&& 255 = k % 256 := Nat.and_pow_two_sub_one_eq_mod k 8
  have e3 : (capsRequest a k).getD 3 0 = (k >>> 8) % 256 := rfl
  have e4 : (capsRequest a k).getD 4 0 = k &&& 255 := rfl
  rw [e3, e4, h8, h255]
  omega

theorem babbler_pass (a : Nat) (c : CapsState Nat) (ha : a < 128) (hk : c.offset < 65536) :
    (caps_pass babbler a c).1 = true ∧ (caps_pass babbler a c).2.offset = c.offset + 1 := by
  have hd : (babbler.ioctlWrite c.sys.dev a (capsRequest a c.offset)).2 = c.offset :=
    capsRequest_offset a c.offset hk
  have hT : babbler.ioctlRead (babbler.ioctlWrite c.sys.dev a (capsRequest a c.offset)).2 a
      ((35 + 3) % 256) =
      (1, inboundFrame a ([DDCCI_REPLY_CAPS, c.offset / 256, c.offset % 256] ++ [0x41]),
        c.offset) := by
    rw [hd]
    show ((1 : Int), (inboundFrame a [DDCCI_REPLY_CAPS, c.offset / 256, c.offset % 256,
      0x41]).map (fun y => y % 256), c.offset) = _
    rw [map_mod_bytes _ (inboundFrame_bytes a _ ha (by simp) (by
      intro y hy
      simp only [List.mem_cons, List.mem_singleton, List.mem_nil_iff, or_false,
        DDCCI_REPLY_CAPS] at hy
      omega))]
    rfl
  have h := caps_pass_reply babbler a c [0x41] 1 c.offset ha (by simp) (by simp) (by omega)
    (by show (0 : Int) ≤ 1; decide) hT (by decide)
  rw [h]
  exact ⟨rfl, rfl⟩

theorem babbler_keeps_going (a : Nat) (ha : a < 128) :
    ∀ (fuel : Nat) (c : CapsState Nat), c.offset + fuel ≤ 65536 →
      caps_loop babbler a fuel c = none := by
  intro fuel
  induction fuel with
  | zero => intro c _; rfl
  | succ fuel ih =>
    intro c h
    obtain ⟨h1, h2⟩ := babbler_pass a c ha (by omega)
    simp only [caps_loop, h1, if_true]
    exact ih _ (by omega)

theorem scripted_chunks (a : Nat) (ha : a < 128) (chunks : List (List Nat)) :
    ∀ (off : Nat) (len : Int) (buf : List Nat) (tr : List Event) (fuel : Nat),
      (∀ c ∈ chunks, 1 ≤ c.length ∧ c.length ≤ 32 ∧ ∀ y ∈ c, y < 256) →
      off + chunks.flatten.length ≤ 65535 → chunks.length + 1 ≤ fuel →
      ∃ c', caps_loop scripted a fuel
          ⟨off, len, buf, ⟨⟨List.replicate (chunks.length + 1) 1, capsReplies a off chunks⟩,
            tr⟩⟩ = some c' ∧
        capsOutput c'.sys.trace = capsOutput tr ++ chunks.flatten ∧
        c'.offset = off + chunks.flatten.length ∧ c'.sys.dev = ⟨[], []⟩ ∧
        countReads c'.sys.trace = countReads tr + (chunks.length + 1) := by
  induction chunks with
  | nil =>
    intro off len buf tr fuel _ hoff hfuel
    obtain ⟨fuel, rfl⟩ : ∃ f, fuel = f + 1 := ⟨fuel - 1, by simp at hfuel; omega⟩
    have h := caps_pass_reply scripted a
      ⟨off, len, buf, ⟨⟨List.replicate ([] : List (List Nat)).length.succ 1,
        capsReplies a off []⟩, tr⟩⟩ [] 1 ⟨[], []⟩ ha (by simp) (by simp)
      (by simpa using hoff) (by show (0 : Int) ≤ 1; decide) rfl (by decide)
    have hloop : caps_loop scripted a (fuel + 1)
        ⟨off, len, buf, ⟨⟨List.replicate (([] : List (List Nat)).length + 1) 1,
          capsReplies a off []⟩, tr⟩⟩ =
        some (caps_pass scripted a ⟨off, len, buf,
          ⟨⟨List.replicate ([] : List (List Nat)).length.succ 1, capsReplies a off []⟩,
            tr⟩⟩).2 := by
      simp only [caps_loop]
      rw [h]
      rfl
    refine ⟨_, hloop, ?_, ?_, ?_, ?_⟩
    · rw [h]
      simp [capsOutput]
    · rw [h]
      simp
    · rw [h]
    · rw [h]
      simp [countReads]
  | cons ch chunks ih =>
    intro off len buf tr fuel hch hoff hfuel
    obtain ⟨fuel, rfl⟩ : ∃ f, fuel = f + 1 := ⟨fuel - 1, by simp at hfuel; omega⟩
    obtain ⟨hc1, hc2, hc3⟩ := hch ch (List.mem_cons_self _ _)
    simp only [List.flatten_cons, List.length_append] at hoff
    have h := caps_pass_reply scripted a
      ⟨off, len, buf, ⟨⟨List.replicate (ch :: chunks).length.succ 1,
        capsReplies a off (ch :: chunks)⟩, tr⟩⟩ ch 1
      ⟨List.replicate (chunks.length + 1) 1, capsReplies a (off + ch.length) chunks⟩
      ha hc2 hc3 (by show off ≤ 65535; omega) (by show (0 : Int) ≤ 1; decide) rfl (by decide)
    obtain ⟨c', q1, q2, q3, q4, q5⟩ := ih (off + ch.length) ((3 + ch.length : Nat) : Int)
      ([DDCCI_REPLY_CAPS, off / 256, off % 256] ++ ch ++ buf.drop (3 + ch.length))
      (tr ++ [Event.i2cWrite a (capsRequest a off), Event.usleep DELAY,
        Event.i2cRead a ((35 + 3) % 256)] ++ ch.map Event.printCaps) fuel
      (fun c hc => hch c (List.mem_cons_of_mem _ hc)) (by omega)
      (by simp only [List.length_cons] at hfuel; omega)
    refine ⟨c', ?_, ?_, ?_, q4, ?_⟩
    · simp only [caps_loop]
      rw [h]
      have hgo : decide (0 < ch.length) = true := by simpa using hc1
      simp only [hgo, if_true]
      exact q1
    · rw [q2, capsOutput_append, capsOutput_append, capsOutput_prints, List.flatten_cons,
        List.append_assoc, List.append_assoc]
      rfl
    · rw [q3]
      simp only [List.flatten_cons, List.length_append]
      omega
    · rw [q5, countReads_append, countReads_append, countReads_prints]
      simp only [List.length_cons]
      have h3 : countReads [Event.i2cWrite a (capsRequest a off), Event.usleep DELAY,
          Event.i2cRead a ((35 + 3) % 256)] = 1 := rfl
      omega

/-! ### Accesses of `ddcci_read` to `_buf` -/

theorem dumphex_reads_lt (len : Nat) : ∀ i ∈ dumphex_reads len, i < len := by
  intro i hi
  simp only [dumphex_reads, List.mem_flatMap, List.mem_append, List.mem_map,
    List.mem_filter, decide_eq_true_eq, or_self] at hi
  obtain ⟨k, _, j, ⟨_, hj⟩, rfl⟩ := hi
  exact hj

theorem i2c_read_of {σ : Type} (T : Transport σ) (s : Sys σ) (a c : Nat) (r : Int)
    (b : List Nat) (d : σ) (hT : T.ioctlRead s.dev a c = (r, b, d)) :
    ((i2c_read T s a c).1 ≤ 0 ↔ r ≤ 0) ∧ (i2c_read T s a c).2.1 = b := by
  simp only [i2c_read, hT]
  split_ifs with h
  · exact ⟨⟨fun _ => by omega, fun _ => by show (-1 : Int) ≤ 0; decide⟩, rfl⟩
  · exact ⟨Iff.rfl, rfl⟩

theorem run_stored {σ : Type} (T : Transport σ) (s : Sys σ) (a : Nat) (buf : List Nat)
    (L : Nat) : (ddcci_read_run T s a buf L).stored = (L + 3) % 256 := by
  simp only [ddcci_read_run]
  split_ifs <;> rfl

theorem run_reads_max {σ : Type} (T : Transport σ) (s : Sys σ) (a : Nat) (buf : List Nat)
    (L : Nat) (hL : L ≤ 124) : ∀ i ∈ (ddcci_read_run T s a buf L).reads, i < MAX_BYTES := by
  intro i hi
  simp only [ddcci_read_run] at hi
  split_ifs at hi with c1 c2 c3 c4 c5 c6 <;>
    simp only [List.mem_append, List.mem_cons, List.mem_singleton, List.mem_nil_iff,
      or_false, List.mem_range, List.mem_map, List.not_mem_nil] at hi
  all_goals simp only [MAX_BYTES] at *
  · omega
  · rcases hi with h | h
    · omega
    · exact dumphex_reads_lt _ i h
  · omega
  · omega
  · rcases hi with (h | h) | h <;> omega
  · rcases hi with (h | h) | ⟨j, hj, rfl⟩ <;> omega

theorem run_reads_count {σ : Type} (T : Transport σ) (s : Sys σ) (a : Nat)
    (buf : List Nat) (L : Nat) (hL : L ≤ 124)
    (hno : (i2c_read T s a ((L + 3) % 256)).1 ≤ 0 ∨
      (i2c_read T s a ((L + 3) % 256)).2.1.getD 0 0 = 0x51 ∨
      (i2c_read T s a ((L + 3) % 256)).2.1.getD 0 0 = 0xff ∨
      (i2c_read T s a ((L + 3) % 256)).2.1.getD 0 0 = (a * 2) % 2 ^ 32) :
    ∀ i ∈ (ddcci_read_run T s a buf L).reads, i < L + 3 := by
  intro i hi
  simp only [ddcci_read_run] at hi
  split_ifs at hi with c1 c2 c3 c4 c5 c6 <;>
    simp only [List.mem_append, List.mem_cons, List.mem_singleton, List.mem_nil_iff,
      or_false, List.mem_range, List.mem_map, List.not_mem_nil] at hi
  · omega
  · exfalso
    rcases hno with h | h | h | h
    · exact c1 h
    · exact c2 (Or.inl h)
    · exact c2 (Or.inr h)
    · exact c3 h
  all_goals simp only [MAX_BYTES] at *
  · omega
  · omega
  · rcases hi with (h | h) | h <;> omega
  · rcases hi with (h | h) | ⟨j, hj, rfl⟩ <;> omega

theorem run_reads_mismatch {σ : Type} (T : Transport σ) (s : Sys σ) (a : Nat)
    (buf : List Nat) (L : Nat)
    (h1 : ¬ (i2c_read T s a ((L + 3) % 256)).1 ≤ 0)
    (h2 : (i2c_read T s a ((L + 3) % 256)).2.1.getD 0 0 ≠ 0x51)
    (h3 : (i2c_read T s a ((L + 3) % 256)).2.1.getD 0 0 ≠ 0xff)
    (h4 : (i2c_read T s a ((L + 3) % 256)).2.1.getD 0 0 ≠ (a * 2) % 2 ^ 32) :
    (ddcci_read_run T s a buf L).reads = [0] ++ dumphex_reads MAX_BYTES ∧
      (ddcci_read_run T s a buf L).ret = -1 := by
  have h23 : ¬ ((i2c_read T s a ((L + 3) % 256)).2.1.getD 0 0 = 0x51 ∨
      (i2c_read T s a ((L + 3) % 256)).2.1.getD 0 0 = 0xff) := by
    rintro (h | h)
    · exact h2 h
    · exact h3 h
  simp only [ddcci_read_run, h1, h23, if_false]
  rw [if_pos h4]
  exact ⟨rfl, rfl⟩

theorem run_reads_success {σ : Type} (T : Transport σ) (s : Sys σ) (a : Nat)
    (buf : List Nat) (L : Nat) (h : 0 ≤ (ddcci_read_run T s a buf L).ret) :
    (ddcci_read_run T s a buf L).reads =
      [0, 1] ++ List.range (((i2c_read T s a ((L + 3) % 256)).2.1.getD 1 0 &&& 0x7f) + 3) ++
        (List.range ((i2c_read T s a ((L + 3) % 256)).2.1.getD 1 0 &&& 0x7f)).map
          (fun i => 2 + i) := by
  revert h
  simp only [ddcci_read_run]
  split_ifs
  · intro h; exact absurd h (by show ¬ (0 : Int) ≤ -1; decide)
  · intro h; exact absurd h (by show ¬ (0 : Int) ≤ -1; decide)
  · intro h; exact absurd h (by show ¬ (0 : Int) ≤ -1; decide)
  · intro h; exact absurd h (by show ¬ (0 : Int) ≤ -1; decide)
  · intro h; exact absurd h (by show ¬ (0 : Int) ≤ -1; decide)
  · intro h; exact absurd h (by show ¬ (0 : Int) ≤ -1; decide)
  · intro _; rfl

theorem run_ret_range {σ : Type} (T : Transport σ) (s : Sys σ) (a : Nat) (buf : List Nat)
    (L : Nat) :
    (ddcci_read_run T s a buf L).ret = -1 ∨
      (0 ≤ (ddcci_read_run T s a buf L).ret ∧ (ddcci_read_run T s a buf L).ret ≤ (L : Int)) := by
  simp only [ddcci_read_run]
  split_ifs with c1 c2 c3 c4 c5 c6
  · exact Or.inl rfl
  · exact Or.inl rfl
  · exact Or.inl rfl
  · exact Or.inl rfl
  · exact Or.inl rfl
  · exact Or.inl rfl
  · refine Or.inr ⟨Int.ofNat_nonneg _, ?_⟩
    simp only [gt_iff_lt, not_or, not_lt] at c5
    exact Int.ofNat_le.2 c5.1

theorem run_buf_length {σ : Type} (T : Transport σ) (s : Sys σ) (a : Nat) (buf : List Nat)
    (L : Nat) (hbuf : L ≤ buf.length) :
    (ddcci_read_run T s a buf L).buf.length = buf.length := by
  simp only [ddcci_read_run]
  split_ifs with c1 c2 c3 c4 c5 c6
  · rfl
  · rfl
  · rfl
  · rfl
  · rfl
  · rfl
  · simp only [gt_iff_lt, not_or, not_lt] at c5
    simp only [List.length_append, List.length_map, List.length_range, List.length_drop]
    omega

theorem reply_frame_check_rest (a : Nat) (p rest : List Nat) (L : Nat) (ha : a < 128)
    (hlen : p.length ≤ 127) (hp : ∀ y ∈ p, y < 256) (hrest : ∀ y ∈ rest, y < 256)
    (hL : p.length ≤ L) :
    ddcci_read_check a ([a * 2, 0x80 ||| p.length] ++ p ++
      [xorFold (0x50 ^^^ (a * 2) ^^^ (0x80 ||| p.length)) p] ++ rest) L = some p.length := by
  have hm := marker_bits p.length (by omega)
  have hbytes : ∀ y ∈ [a * 2, 0x80 ||| p.length] ++ p ++
      [xorFold (0x50 ^^^ (a * 2) ^^^ (0x80 ||| p.length)) p] ++ rest, y < 256 := by
    intro y hy
    rcases List.mem_append.1 hy with h | h
    · exact inboundFrame_bytes a p ha hlen hp y h
    · exact hrest y h
  rw [ddcci_read_check_iff a _ L p.length ha hbytes]
  have h1 : ([a * 2, 0x80 ||| p.length] ++ p ++
      [xorFold (0x50 ^^^ (a * 2) ^^^ (0x80 ||| p.length)) p] ++ rest).getD 1 0 =
        0x80 ||| p.length := rfl
  have h0 : ([a * 2, 0x80 ||| p.length] ++ p ++
      [xorFold (0x50 ^^^ (a * 2) ^^^ (0x80 ||| p.length)) p] ++ rest).getD 0 0 = a * 2 := rfl
  rw [h0, h1]
  refine ⟨rfl, by omega, by omega, hL, ?_⟩
  rw [List.take_left' (by simp), xorFold_append, xorFold_append]
  simp [xorFold]

/-! ### One write per attempt -/

theorem writesOnly_append (addr : Nat) (frame : List Nat) (x y : List Event)
    (hx : writesOnly addr frame x) (hy : writesOnly addr frame y) :
    writesOnly addr frame (x ++ y) := by
  intro e he a f hef
  rcases List.mem_append.1 he with h | h
  · exact hx e h a f hef
  · exact hy e h a f hef

theorem retry_loop_segments {α : Type} (op : α → Int × α) (delay : α → α)
    (tr : α → List Event) (addr : Nat) (frame : List Nat)
    (hop : ∀ a, ∃ seg, tr (op a).2 = tr a ++ seg ∧ countWrites seg = 1 ∧
      writesOnly addr frame seg)
    (hd : ∀ a, ∃ seg, tr (delay a) = tr a ++ seg ∧ countWrites seg = 0 ∧
      writesOnly addr frame seg) :
    ∀ (n : Nat) (len : Int) (a : α), ∃ seg,
      tr (retry_loop op delay n len a).2.1 = tr a ++ seg ∧
        countWrites seg = (retry_loop op delay n len a).2.2 ∧ writesOnly addr frame seg := by
  intro n
  induction n with
  | zero =>
    intro len a
    exact ⟨[], (List.append_nil _).symm, rfl, fun e he => absurd he (List.not_mem_nil e)⟩
  | succ n ih =>
    intro len a
    obtain ⟨s1, p1, p2, p3⟩ := hop a
    simp only [retry_loop]
    split_ifs
    · obtain ⟨s2, q1, q2, q3⟩ := hd (op a).2
      obtain ⟨s3, r1, r2, r3⟩ := ih (op a).1 (delay (op a).2)
      refine ⟨s1 ++ (s2 ++ s3), ?_, ?_, ?_⟩
      · show tr (retry_loop op delay n (op a).1 (delay (op a).2)).2.1 = _
        rw [r1, q1, p1, List.append_assoc, List.append_assoc]
      · show _ = (retry_loop op delay n (op a).1 (delay (op a).2)).2.2 + 1
        rw [countWrites_append, countWrites_append, p2, q2, r2]
        omega
      · exact writesOnly_append _ _ _ _ p3 (writesOnly_append _ _ _ _ q3 r3)
    · exact ⟨s1, p1, p2, p3⟩

theorem retry_loop_count_pos {α : Type} (op : α → Int × α) (delay : α → α) (n : Nat)
    (len : Int) (a : α) : 1 ≤ (retry_loop op delay (n + 1) len a).2.2 := by
  simp only [retry_loop]
  split_ifs
  · exact Nat.le_add_left 1 _
  · exact Nat.le_refl 1

theorem retry_loop_again {α : Type} (op : α → Int × α) (delay : α → α) (n : Nat)
    (len : Int) (a : α) (h : (op a).1 < 0) :
    2 ≤ (retry_loop op delay (n + 2) len a).2.2 := by
  have hp := retry_loop_count_pos op delay n (op a).1 (delay (op a).2)
  rw [retry_loop]
  simp only [h, if_true]
  omega

theorem ddcci_caps_failed {σ : Type} (T : Transport σ) (t : Sys σ) (addr offset : Nat)
    (b : List Nat) (n : Nat) (hw : (T.ioctlWrite t.dev addr (capsRequest addr offset)).1 < 0) :
    ddcci_caps T t addr offset b n =
      (-1, b, ⟨(T.ioctlWrite t.dev addr (capsRequest addr offset)).2,
        t.trace ++ [Event.i2cWrite addr (capsRequest addr offset)]⟩) := by
  unfold capsRequest at hw ⊢
  simp [ddcci_caps, ddcci_write_failed T t addr _ 3 (by omega) hw]

theorem ddcci_readctrl_failed {σ : Type} (T : Transport σ) (t : Sys σ) (addr ctrl : Nat)
    (b : List Nat) (n : Nat) (hw : (T.ioctlWrite t.dev addr (readRequest addr ctrl)).1 < 0) :
    ddcci_readctrl T t addr ctrl b n =
      (-1, b, ⟨(T.ioctlWrite t.dev addr (readRequest addr ctrl)).2,
        t.trace ++ [Event.i2cWrite addr (readRequest addr ctrl)]⟩) := by
  unfold readRequest at hw ⊢
  simp [ddcci_readctrl, ddcci_write_failed T t addr _ 2 (by omega) hw]

theorem ddcci_dumpctrl_failed {σ : Type} (T : Transport σ) (t : Sys σ) (addr ctrl : Nat)
    (force : Bool) (hw : (T.ioctlWrite t.dev addr (readRequest addr ctrl)).1 < 0) :
    ddcci_dumpctrl T t addr ctrl force =
      (-1, ⟨(T.ioctlWrite t.dev addr (readRequest addr ctrl)).2,
        t.trace ++ [Event.i2cWrite addr (readRequest addr ctrl)]⟩) := by
  simp [ddcci_dumpctrl, ddcci_readctrl_failed T t addr ctrl _ 8 hw]

theorem ddcci_caps_segment {σ : Type} (T : Transport σ) (t : Sys σ) (addr offset : Nat)
    (b : List Nat) (n : Nat) :
    ∃ seg, (ddcci_caps T t addr offset b n).2.2.trace = t.trace ++ seg ∧
      countWrites seg = 1 ∧ writesOnly addr (capsRequest addr offset) seg := by
  have hw := ddcci_write_trace_any T t addr
    [DDCCI_COMMAND_CAPS, (offset >>> 8) % 256, offset &&& 255] 3 (by omega)
  simp only [ddcci_caps]
  split_ifs
  · refine ⟨[Event.i2cWrite addr (capsRequest addr offset)], hw, rfl, ?_⟩
    intro e he a f hef
    simp only [List.mem_singleton] at he
    rw [he] at hef
    cases hef
    exact ⟨rfl, rfl⟩
  · refine ⟨[Event.i2cWrite addr (capsRequest addr offset), Event.usleep DELAY,
      Event.i2cRead addr ((n + 3) % 256)], ?_, rfl, ?_⟩
    · rw [ddcci_read_trace]
      simp only [usleep, hw, capsRequest, List.append_assoc, List.cons_append,
        List.nil_append]
    · intro e he a f hef
      simp only [List.mem_cons, List.mem_singleton, List.mem_nil_iff, or_false] at he
      rcases he with h | h | h <;> rw [h] at hef <;> cases hef
      exact ⟨rfl, rfl⟩

theorem ddcci_dumpctrl_segment {σ : Type} (T : Transport σ) (t : Sys σ) (addr ctrl : Nat)
    (force : Bool) :
    ∃ seg, (ddcci_dumpctrl T t addr ctrl force).2.trace = t.trace ++ seg ∧
      countWrites seg = 1 ∧ writesOnly addr (readRequest addr ctrl) seg := by
  have hw := ddcci_write_trace_any T t addr [DDCCI_COMMAND_READ, ctrl] 2 (by omega)
  have hrd : ∃ seg, (ddcci_readctrl T t addr ctrl (List.replicate 8 0) 8).2.2.trace =
      t.trace ++ seg ∧ countWrites seg = 1 ∧ writesOnly addr (readRequest addr ctrl) seg := by
    simp only [ddcci_readctrl]
    split_ifs
    · refine ⟨[Event.i2cWrite addr (readRequest addr ctrl)], hw, rfl, ?_⟩
      intro e he a f hef
      simp only [List.mem_singleton] at he
      rw [he] at hef
      cases hef
      exact ⟨rfl, rfl⟩
    · refine ⟨[Event.i2cWrite addr (readRequest addr ctrl), Event.usleep DELAY,
        Event.i2cRead addr ((8 + 3) % 256)], ?_, rfl, ?_⟩
      · rw [ddcci_read_trace]
        simp only [usleep, hw, readRequest, List.append_assoc, List.cons_append,
          List.nil_append]
      · intro e he a f hef
        simp only [List.mem_cons, List.mem_singleton, List.mem_nil_iff, or_false] at he
        rcases he with h | h | h <;> rw [h] at hef <;> cases hef
        exact ⟨rfl, rfl⟩
  obtain ⟨seg, h1, h2, h3⟩ := hrd
  simp only [ddcci_dumpctrl]
  split_ifs
  · refine ⟨seg ++ [Event.printCtrl ctrl
      ((ddcci_readctrl T t addr ctrl (List.replicate 8 0) 8).2.1.getD 1 0)
      ((ddcci_readctrl T t addr ctrl (List.replicate 8 0) 8).2.1.getD 6 0 * 256 +
        (ddcci_readctrl T t addr ctrl (List.replicate 8 0) 8).2.1.getD 7 0)
      ((ddcci_readctrl T t addr ctrl (List.replicate 8 0) 8).2.1.getD 4 0 * 256 +
        (ddcci_readctrl T t addr ctrl (List.replicate 8 0) 8).2.1.getD 5 0)], ?_, ?_, ?_⟩
    · show (ddcci_readctrl T t addr ctrl (List.replicate 8 0) 8).2.2.trace ++ _ = _
      rw [h1, List.append_assoc]
    · rw [countWrites_append, h2]
      rfl
    · apply writesOnly_append _ _ _ _ h3
      intro e he a f hef
      simp only [List.mem_singleton] at he
      rw [he] at hef
      cases hef
  · exact ⟨seg, h1, h2, h3⟩

theorem usleep_segment {σ : Type} (t : Sys σ) (addr : Nat) (frame : List Nat) :
    ∃ seg, (usleep t DELAY).trace = t.trace ++ seg ∧ countWrites seg = 0 ∧
      writesOnly addr frame seg := by
  refine ⟨[Event.usleep DELAY], rfl, rfl, ?_⟩
  intro e he a f hef
  simp only [List.mem_singleton] at he
  rw [he] at hef
  cases hef

/-! ## The claims -/

/-- C2 (outbound wire format and checksum): for every address `a` in 0..127 and
every payload `p` of at most 127 bytes, `ddcci_write` hands the transport, in
one write message, exactly the `len(p)+3` bytes `[0x51, 0x80 | len(p)] ++ p ++ [c]`
where `c` is the exclusive-or of `a << 1`, `0x51`, `0x80 | len(p)` and every
payload byte; the exclusive-or of `a << 1` with all bytes of the frame is 0. -/
theorem ddcci_write_wire_format {σ : Type} (T : Transport σ) (s : Sys σ) (a : Nat)
    (p : List Nat) (ha : a < 128) (hlen : p.length ≤ 127) (hp : ∀ y ∈ p, y < 256) :
    (ddcci_write T s a p p.length).2.trace =
        s.trace ++ [Event.i2cWrite a ([0x51, 0x80 ||| p.length] ++ p ++
          [xorFold ((a <<< 1) ^^^ 0x51 ^^^ (0x80 ||| p.length)) p])] ∧
      ([0x51, 0x80 ||| p.length] ++ p ++
          [xorFold ((a <<< 1) ^^^ 0x51 ^^^ (0x80 ||| p.length)) p]).length = p.length + 3 ∧
      xorFold (a <<< 1) ([0x51, 0x80 ||| p.length] ++ p ++
          [xorFold ((a <<< 1) ^^^ 0x51 ^^^ (0x80 ||| p.length)) p]) = 0 := by
  refine ⟨?_, ?_, ?_⟩
  · rw [ddcci_write_trace T s a p ha hlen hp]
    exact i2c_write_trace T s a _ _ (by simp)
  · simp
  · rw [xorFold_append, xorFold_append]
    simp [xorFold]

/-- Instance of C2: the read-control request for brightness at address `0x37`. -/
theorem ddcci_write_wire_format_witness :
    (ddcci_write scripted ⟨⟨[1], []⟩, []⟩ 0x37 [0x01, 0x10] 2).2.trace =
        [Event.i2cWrite 0x37 [0x51, 0x82, 0x01, 0x10, 0xac]] ∧
      xorFold (0x37 <<< 1) [0x51, 0x82, 0x01, 0x10, 0xac] = 0 :=
  ⟨(ddcci_write_wire_format scripted ⟨⟨[1], []⟩, []⟩ 0x37 [0x01, 0x10]
      (by decide) (by decide) (by decide)).1,
    (ddcci_write_wire_format scripted ⟨⟨[1], []⟩, []⟩ 0x37 [0x01, 0x10]
      (by decide) (by decide) (by decide)).2.2⟩

/-- C6 (write-control framing): for every control id `c`, every 16-bit value
`v` and every address `a` in 0..127, `ddcci_writectrl` hands the transport
exactly the 7 bytes `[0x51, 0x84, 0x03, c, v / 256, v mod 256, x]`, `x` being
the exclusive-or of `a << 1` with the six preceding bytes. -/
theorem ddcci_writectrl_frame {σ : Type} (T : Transport σ) (s : Sys σ) (a c v : Nat)
    (ha : a < 128) (hc : c < 256) (hv : v < 65536) :
    (ddcci_writectrl T s a c v).2.trace =
      s.trace ++ [Event.i2cWrite a [0x51, 0x84, 0x03, c, v / 256, v % 256,
        xorFold (a <<< 1) [0x51, 0x84, 0x03, c, v / 256, v % 256]]] := by
  have h8 : v >>> 8 = v / 256 := by rw [Nat.shiftRight_eq_div_pow]
  have h255 : v &&& 255 = v % 256 := Nat.and_pow_two_sub_one_eq_mod v 8
  have hd : v / 256 < 256 := by omega
  have hm : v % 256 < 256 := by omega
  have hbytes : ∀ y ∈ [0x03, c, v / 256, v % 256], y < 256 := by
    intro y hy
    simp only [List.mem_cons, List.mem_singleton, List.mem_nil_iff, or_false] at hy
    omega
  have h := ddcci_write_trace T s a [0x03, c, v / 256, v % 256] ha (by simp) hbytes
  simp only [ddcci_writectrl, DDCCI_COMMAND_WRITE, h8, h255, Nat.mod_eq_of_lt hd]
  have hlen : [0x03, c, v / 256, v % 256].length = 4 := rfl
  rw [hlen] at h
  rw [h]
  exact i2c_write_trace T s a _ _ (by simp)

/-- Instance of C6: control `0x10`, value 50, address `0x37`; the checksum is `0x9a`. -/
theorem ddcci_writectrl_frame_witness :
    (ddcci_writectrl scripted ⟨⟨[1], []⟩, []⟩ 0x37 0x10 50).2.trace =
      [Event.i2cWrite 0x37 [0x51, 0x84, 0x03, 0x10, 0x00, 0x32, 0x9a]] :=
  ddcci_writectrl_frame scripted ⟨⟨[1], []⟩, []⟩ 0x37 0x10 50 (by decide) (by decide)
    (by decide)

set_option maxRecDepth 100000 in
/-- C5 (evaluation at the failing input): for a payload of 128 bytes
`ddcci_write` does not fail; it stores 131 bytes through `_buf[i++]` (the
array has `MAX_BYTES + 3 = 130` elements), the length marker is `0x80`, and it
hands all 131 bytes to the transport, returning the transport's result. -/
theorem ddcci_write_oversize_not_rejected :
    (ddcci_write scripted ⟨⟨[1], []⟩, []⟩ 0x37 (List.replicate 128 0) 128).1 = 1 ∧
      (ddcci_write scripted ⟨⟨[1], []⟩, []⟩ 0x37 (List.replicate 128 0) 128).2.trace =
        [Event.i2cWrite 0x37 ([0x51, 0x80] ++ List.replicate 128 0 ++ [0xbf])] ∧
      (ddcci_write_buf 0x37 (List.replicate 128 0) 128).length = 131 ∧
      MAX_BYTES + 3 < (ddcci_write_buf 0x37 (List.replicate 128 0) 128).length := by
  decide

/-- C1 (counterexample): the byte sequence that `ddcci_write` hands to the
transport for address `0x37` and payload `[0x01, 0x10]` is
`[0x51, 0x82, 0x01, 0x10, 0xac]`; `ddcci_read` for the same address and maximum
length 2 receiving these bytes returns `-1` (the leading `0x51` is a busy
indicator) and leaves the caller's buffer alone. -/
theorem roundtrip_fails_on_emitted_frame :
    (ddcci_write scripted ⟨⟨[1], []⟩, []⟩ 0x37 [0x01, 0x10] 2).2.trace =
        [Event.i2cWrite 0x37 [0x51, 0x82, 0x01, 0x10, 0xac]] ∧
      (ddcci_read scripted ⟨⟨[], [(1, [0x51, 0x82, 0x01, 0x10, 0xac])]⟩, []⟩
        0x37 [0, 0] 2).1 = -1 ∧
      (ddcci_read scripted ⟨⟨[], [(1, [0x51, 0x82, 0x01, 0x10, 0xac])]⟩, []⟩
        0x37 [0, 0] 2).2.1 = [0, 0] := by
  decide

/-- C1 (amended): for every address `a` in 0..127, every payload `p` and every
maximum length `L` with `len(p) ≤ L ≤ 124` (so that the `L + 3` bytes asked
from the transport fit `_buf`): decoding a received buffer that starts with
the bytes `ddcci_write` emits for `p` fails and leaves the caller's buffer
alone; decoding a received buffer that starts with the inbound frame
`[a*2, 0x80 | len(p)] ++ p ++ [c']`, `c'` being the exclusive-or of `0x50`,
`a*2`, `0x80 | len(p)` and the payload bytes, succeeds without leaving `_buf`
and returns exactly `p`; and `c'` is the emitted checksum with its lowest bit
flipped. -/
theorem roundtrip_inbound_frame {σ : Type} (T : Transport σ) (s : Sys σ) (a : Nat)
    (p buf rest : List Nat) (L : Nat) (r : Int) (d : σ)
    (ha : a < 128) (hp : ∀ y ∈ p, y < 256) (hrest : ∀ y ∈ rest, y < 256)
    (hL : p.length ≤ L) (hL124 : L ≤ 124) (hr : 0 < r) :
    (T.ioctlRead s.dev a ((L + 3) % 256) = (r, ddcci_write_buf a p p.length ++ rest, d) →
        (ddcci_read T s a buf L).1 = -1 ∧ (ddcci_read T s a buf L).2.1 = buf) ∧
      (T.ioctlRead s.dev a ((L + 3) % 256) =
          (r, [a * 2, 0x80 ||| p.length] ++ p ++
            [xorFold (0x50 ^^^ (a * 2) ^^^ (0x80 ||| p.length)) p] ++ rest, d) →
        (ddcci_read T s a buf L).1 = (p.length : Int) ∧
          (ddcci_read T s a buf L).2.1 = p ++ buf.drop p.length ∧
          (ddcci_read_run T s a buf L).stored ≤ MAX_BYTES ∧
          ∀ i ∈ (ddcci_read_run T s a buf L).reads, i < MAX_BYTES) ∧
      xorFold (0x50 ^^^ (a * 2) ^^^ (0x80 ||| p.length)) p =
        (ddcci_write_buf a p p.length).getD (p.length + 2) 0 ^^^ 1 := by
  have hlen : p.length ≤ 127 := by omega
  refine ⟨?_, ?_, ?_⟩
  · intro hT
    have hbusy : ddcci_read_check a (ddcci_write_buf a p p.length ++ rest) L = none := by
      apply ddcci_read_check_busy
      rw [ddcci_write_buf_eq a p ha hlen hp]
      exact Or.inl rfl
    rw [ddcci_read_eq T s a buf L r _ d hT hr, hbusy]
    exact ⟨rfl, rfl⟩
  · intro hT
    have h := (ddcci_read_neg_iff T s a buf L r _ d hT hr).2 p.length
      (reply_frame_check_rest a p rest L ha hlen hp hrest hL)
    refine ⟨h.1, ?_, ?_, run_reads_max T s a buf L hL124⟩
    · rw [h.2, List.append_assoc]
      exact memcpy_frame buf _ _ p _
    · rw [run_stored, Nat.mod_eq_of_lt (by omega)]
      simp only [MAX_BYTES]
      omega
  · rw [ddcci_write_buf_eq a p ha hlen hp]
    have hg : ([0x51, 0x80 ||| p.length] ++ p ++
        [xorFold ((a <<< 1) ^^^ 0x51 ^^^ (0x80 ||| p.length)) p]).getD (p.length + 2) 0 =
          xorFold ((a <<< 1) ^^^ 0x51 ^^^ (0x80 ||| p.length)) p := by
      rw [List.getD_eq_getElem?_getD, List.getElem?_append_right (by simp)]
      simp
    rw [hg, ← xorFold_xor, Nat.shiftLeft_eq, pow_one]
    congr 1
    exact (flip_low_bit (a * 2) (0x80 ||| p.length)).symm

/-- Instance of C1 (amended): `L = 4`; the inbound frame carrying `[0x01, 0x10]`,
followed by two more received bytes, decodes to it. -/
theorem roundtrip_inbound_frame_witness :
    (ddcci_read scripted ⟨⟨[], [(1, [0x6e, 0x82, 0x01, 0x10, 0xad, 9, 9])]⟩, []⟩
        0x37 [0, 0, 0, 0] 4).1 = 2 ∧
      (ddcci_read scripted ⟨⟨[], [(1, [0x6e, 0x82, 0x01, 0x10, 0xad, 9, 9])]⟩, []⟩
        0x37 [0, 0, 0, 0] 4).2.1 = [0x01, 0x10, 0, 0] ∧
      (ddcci_read_run scripted ⟨⟨[], [(1, [0x6e, 0x82, 0x01, 0x10, 0xad, 9, 9])]⟩, []⟩
        0x37 [0, 0, 0, 0] 4).stored ≤ MAX_BYTES ∧
      ∀ i ∈ (ddcci_read_run scripted ⟨⟨[], [(1, [0x6e, 0x82, 0x01, 0x10, 0xad, 9, 9])]⟩, []⟩
        0x37 [0, 0, 0, 0] 4).reads, i < MAX_BYTES :=
  (roundtrip_inbound_frame scripted ⟨⟨[], [(1, [0x6e, 0x82, 0x01, 0x10, 0xad, 9, 9])]⟩, []⟩
    0x37 [0x01, 0x10] [0, 0, 0, 0] [9, 9] 4 1 ⟨[], []⟩ (by decide) (by decide) (by decide)
    (by decide) (by decide) (by decide)).2.1 rfl

set_option maxRecDepth 100000 in
/-- C3 (evaluation at the failing input): with maximum length `L = 200` and a
received buffer that satisfies the four conditions of the claim (leading byte
`0x37*2`, tag bit set, declared length 2, zero fold), `ddcci_read` asks the
transport to store `203` bytes into the 127-element array `_buf` before any
validation takes place: the call overruns `_buf`. -/
theorem ddcci_read_overruns_buf :
    (ddcci_read_run scripted
        ⟨⟨[], [(1, [0x6e, 0x82, 0x01, 0x10, 0xad] ++ List.replicate 198 0)]⟩, []⟩
        0x37 [7, 8, 9] 200).stored = 203 ∧
      MAX_BYTES < (ddcci_read_run scripted
        ⟨⟨[], [(1, [0x6e, 0x82, 0x01, 0x10, 0xad] ++ List.replicate 198 0)]⟩, []⟩
        0x37 [7, 8, 9] 200).stored ∧
      ([0x6e, 0x82, 0x01, 0x10, 0xad] ++ List.replicate 198 0).getD 0 0 = 0x37 * 2 ∧
      ([0x6e, 0x82, 0x01, 0x10, 0xad] ++ List.replicate 198 0).getD 1 0 &&& 0x80 ≠ 0 ∧
      ([0x6e, 0x82, 0x01, 0x10, 0xad] ++ List.replicate 198 0).getD 1 0 &&& 0x7f ≤ 200 ∧
      xorFold 0x50 (([0x6e, 0x82, 0x01, 0x10, 0xad] ++ List.replicate 198 0).take (2 + 3)) = 0 := by
  decide

/-- Validation within the bound `L ≤ 124`, in which the call stays inside
`_buf`: for every address `a` in 0..127 and received buffer `b` of bytes (the
transport read succeeded), `ddcci_read` stays inside `_buf`, succeeds if and
only if `b[0] = a*2`, bit `0x80` of `b[1]` is set, the declared length
`n = b[1] & 0x7f` is at most `L`, and the exclusive-or of `0x50` with
`b[0..n+2]` is 0; when it succeeds it returns `n` and copies the bytes
`b[2..n+1]`, in order, to the start of the caller's buffer. -/
theorem ddcci_read_accepts_iff {σ : Type} (T : Transport σ) (s : Sys σ) (a : Nat)
    (buf : List Nat) (L : Nat) (r : Int) (b : List Nat) (d : σ)
    (ha : a < 128) (hL : L ≤ 124) (hb : ∀ y ∈ b, y < 256)
    (hT : T.ioctlRead s.dev a ((L + 3) % 256) = (r, b, d)) (hr : 0 < r) :
    ((ddcci_read_run T s a buf L).stored ≤ MAX_BYTES ∧
        ∀ i ∈ (ddcci_read_run T s a buf L).reads, i < MAX_BYTES) ∧
      (0 ≤ (ddcci_read T s a buf L).1 ↔
        (b.getD 0 0 = a * 2 ∧ b.getD 1 0 &&& 0x80 ≠ 0 ∧ b.getD 1 0 &&& 0x7f ≤ L ∧
          xorFold 0x50 (b.take ((b.getD 1 0 &&& 0x7f) + 3)) = 0)) ∧
      (0 ≤ (ddcci_read T s a buf L).1 →
        (ddcci_read T s a buf L).1 = ((b.getD 1 0 &&& 0x7f : Nat) : Int) ∧
          (ddcci_read T s a buf L).2.1 =
            (List.range (b.getD 1 0 &&& 0x7f)).map (fun i => b.getD (2 + i) 0) ++
              buf.drop (b.getD 1 0 &&& 0x7f)) := by
  have hN := ddcci_read_neg_iff T s a buf L r b d hT hr
  refine ⟨⟨?_, run_reads_max T s a buf L hL⟩, ?_⟩
  · rw [run_stored, Nat.mod_eq_of_lt (by omega)]
    simp only [MAX_BYTES]
    omega
  cases hc : ddcci_read_check a b L with
  | none =>
    have hm : (ddcci_read T s a buf L).1 = -1 := hN.1.2 hc
    have hno : ¬ (b.getD 0 0 = a * 2 ∧ b.getD 1 0 &&& 0x80 ≠ 0 ∧ b.getD 1 0 &&& 0x7f ≤ L ∧
        xorFold 0x50 (b.take ((b.getD 1 0 &&& 0x7f) + 3)) = 0) := by
      rintro ⟨h0, h1, h2, h3⟩
      have := (ddcci_read_check_iff a b L (b.getD 1 0 &&& 0x7f) ha hb).2 ⟨h0, h1, rfl, h2, h3⟩
      rw [hc] at this
      exact Option.noConfusion this
    refine ⟨⟨fun h => ?_, fun h => absurd h hno⟩, fun h => ?_⟩ <;>
      · rw [hm] at h; omega
  | some n =>
    obtain ⟨h0, h1, hn, h2, h3⟩ := (ddcci_read_check_iff a b L n ha hb).1 hc
    obtain ⟨e1, e2⟩ := hN.2 n hc
    subst hn
    refine ⟨⟨fun _ => ⟨h0, h1, h2, h3⟩, fun _ => ?_⟩, fun _ => ⟨e1, ?_⟩⟩
    · rw [e1]
      exact Int.ofNat_nonneg _
    · rw [e2, ← memcpy_drop, List.map_map]
      rfl

/-- Instance of the validation within the bound: an accepted frame of declared
length 2 with `L = 2`. -/
theorem ddcci_read_accepts_iff_witness :
    (ddcci_read scripted ⟨⟨[], [(1, [0x6e, 0x82, 0x01, 0x10, 0xad])]⟩, []⟩
        0x37 [7, 8, 9] 2).1 = 2 ∧
      (ddcci_read scripted ⟨⟨[], [(1, [0x6e, 0x82, 0x01, 0x10, 0xad])]⟩, []⟩
        0x37 [7, 8, 9] 2).2.1 = [0x01, 0x10, 9] :=
  (ddcci_read_accepts_iff scripted ⟨⟨[], [(1, [0x6e, 0x82, 0x01, 0x10, 0xad])]⟩, []⟩
    0x37 [7, 8, 9] 2 1 [0x6e, 0x82, 0x01, 0x10, 0xad] ⟨[], []⟩ (by decide) (by decide)
    (by decide) rfl (by decide)).2.2 (by decide)

/-- C9 (bounded retry): with `RETRYS = 3`, for a guarded operation that fails
(negative result) on its first `k` invocations: if `k < 3` and invocation
`k+1` succeeds, the retry loop returns that success (result and state of that
invocation) after exactly `k+1` invocations; if the operation fails on at
least its first 3 invocations, the loop performs exactly 3 invocations and
yields the result of the third. -/
theorem retry_loop_bounded {α : Type} (op : α → Int × α) (delay : α → α) (len0 : Int)
    (a : α) (k : Nat) (hfail : ∀ i, i < k → (op (attemptState op delay a i)).1 < 0) :
    (k < RETRYS → 0 ≤ (op (attemptState op delay a k)).1 →
        retry_loop op delay RETRYS len0 a =
          ((op (attemptState op delay a k)).1, (op (attemptState op delay a k)).2, k + 1)) ∧
      (RETRYS ≤ k →
        retry_loop op delay RETRYS len0 a =
          ((op (attemptState op delay a 2)).1, attemptState op delay a 3, 3) ∧
        (op (attemptState op delay a 2)).1 < 0) := by
  refine ⟨fun hk hok => retry_loop_success op delay RETRYS k len0 a hk hfail hok, fun hk => ?_⟩
  have hk3 : 3 ≤ k := hk
  exact ⟨retry_loop_exhausted op delay 2 len0 a (fun i hi => hfail i (by omega)),
    hfail 2 (by omega)⟩

/-- Instance of C9: the control read fails twice (write failure, busy) and then succeeds. -/
theorem retry_loop_bounded_witness :
    ctrl_retry scripted 0x37 0x10 true
        ⟨⟨[-1, 1, 1], [(1, [0x51]), (1, [0x6e, 0x88, 2, 0, 0x10, 0, 0, 100, 0, 50, 0xf2])]⟩, []⟩ =
      (8, ⟨⟨[], []⟩,
        [Event.i2cWrite 0x37 [0x51, 0x82, 0x01, 0x10, 0xac], Event.usleep 30000,
          Event.i2cWrite 0x37 [0x51, 0x82, 0x01, 0x10, 0xac], Event.usleep 30000,
          Event.i2cRead 0x37 11, Event.usleep 30000,
          Event.i2cWrite 0x37 [0x51, 0x82, 0x01, 0x10, 0xac], Event.usleep 30000,
          Event.i2cRead 0x37 11, Event.printCtrl 0x10 0 50 100]⟩, 3) :=
  (retry_loop_bounded (fun st => ddcci_dumpctrl scripted st 0x37 0x10 true)
    (fun st => usleep st DELAY) 0
    ⟨⟨[-1, 1, 1], [(1, [0x51]), (1, [0x6e, 0x88, 2, 0, 0x10, 0, 0, 100, 0, 50, 0xf2])]⟩, []⟩
    2 (by decide)).1 (by decide) (by decide)

/-- C10 (counterexample): with a transport whose write fails at every attempt,
the guarded capabilities request writes the request frame three times (and
never reads); when only the first write fails, the frame is written twice and
the guarded request returns the success of the second attempt, so the write
failure is not surfaced. -/
theorem failed_write_is_retried :
    (scripted.ioctlWrite ⟨[-1, -1, -1], []⟩ 0x37 [0x51, 0x83, 0xf3, 0, 0, 0x4f]).1 < 0 ∧
      (caps_retry scripted 0x37 0 0 (List.replicate 35 0) ⟨⟨[-1, -1, -1], []⟩, []⟩).2.1.2.trace =
        [Event.i2cWrite 0x37 [0x51, 0x83, 0xf3, 0, 0, 0x4f], Event.usleep 30000,
          Event.i2cWrite 0x37 [0x51, 0x83, 0xf3, 0, 0, 0x4f], Event.usleep 30000,
          Event.i2cWrite 0x37 [0x51, 0x83, 0xf3, 0, 0, 0x4f], Event.usleep 30000] ∧
      countWrites (caps_retry scripted 0x37 0 0 (List.replicate 35 0)
        ⟨⟨[-1, -1, -1], []⟩, []⟩).2.1.2.trace = 3 ∧
      (caps_retry scripted 0x37 0 0 (List.replicate 35 0)
        ⟨⟨[-1, 1], [(1, [0x6e, 0x83, 0xe3, 0, 0, 0x5e])]⟩, []⟩).1 = 3 ∧
      countWrites (caps_retry scripted 0x37 0 0 (List.replicate 35 0)
        ⟨⟨[-1, 1], [(1, [0x6e, 0x83, 0xe3, 0, 0, 0x5e])]⟩, []⟩).2.1.2.trace = 2 := by
  decide

/-- C10 (amended): if the transport write of the request frame fails, the
command itself (`ddcci_caps`, `ddcci_readctrl`) returns `-1` at once, having
issued exactly that one transport write and neither a delay nor a read, and
leaves the caller's buffer alone; the failure is not surfaced by the retry
loop, which wraps the whole command and runs it again, write included (at
least two attempts).  In every guarded request the request frame is written
exactly once per attempt and nothing else is written.  When the write fails
at each of the `RETRYS = 3` attempts, the frame is written exactly three
times, each write followed by the delay, no read is issued, and the loop ends
with the failure. -/
theorem failed_write_retried_per_attempt {σ : Type} (T : Transport σ) (s : Sys σ)
    (addr offset ctrl : Nat) (force : Bool) (len0 : Int) (buf : List Nat) (L : Nat) :
    ((T.ioctlWrite s.dev addr (capsRequest addr offset)).1 < 0 →
        ddcci_caps T s addr offset buf L =
          (-1, buf, ⟨(T.ioctlWrite s.dev addr (capsRequest addr offset)).2,
            s.trace ++ [Event.i2cWrite addr (capsRequest addr offset)]⟩) ∧
        2 ≤ (caps_retry T addr offset len0 buf s).2.2) ∧
      ((T.ioctlWrite s.dev addr (readRequest addr ctrl)).1 < 0 →
        ddcci_readctrl T s addr ctrl buf L =
          (-1, buf, ⟨(T.ioctlWrite s.dev addr (readRequest addr ctrl)).2,
            s.trace ++ [Event.i2cWrite addr (readRequest addr ctrl)]⟩) ∧
        2 ≤ (ctrl_retry T addr ctrl force s).2.2) ∧
      (∃ seg, (caps_retry T addr offset len0 buf s).2.1.2.trace = s.trace ++ seg ∧
        countWrites seg = (caps_retry T addr offset len0 buf s).2.2 ∧
        writesOnly addr (capsRequest addr offset) seg) ∧
      (∃ seg, (ctrl_retry T addr ctrl force s).2.1.trace = s.trace ++ seg ∧
        countWrites seg = (ctrl_retry T addr ctrl force s).2.2 ∧
        writesOnly addr (readRequest addr ctrl) seg) ∧
      (∀ (r1 r2 r3 : Int) (d1 d2 d3 : σ),
        T.ioctlWrite s.dev addr (capsRequest addr offset) = (r1, d1) →
        T.ioctlWrite d1 addr (capsRequest addr offset) = (r2, d2) →
        T.ioctlWrite d2 addr (capsRequest addr offset) = (r3, d3) →
        r1 < 0 → r2 < 0 → r3 < 0 →
        caps_retry T addr offset len0 buf s =
          (-1, (buf, ⟨d3, s.trace ++
            [Event.i2cWrite addr (capsRequest addr offset), Event.usleep DELAY,
              Event.i2cWrite addr (capsRequest addr offset), Event.usleep DELAY,
              Event.i2cWrite addr (capsRequest addr offset), Event.usleep DELAY]⟩), 3)) ∧
      (∀ (r1 r2 r3 : Int) (d1 d2 d3 : σ),
        T.ioctlWrite s.dev addr (readRequest addr ctrl) = (r1, d1) →
        T.ioctlWrite d1 addr (readRequest addr ctrl) = (r2, d2) →
        T.ioctlWrite d2 addr (readRequest addr ctrl) = (r3, d3) →
        r1 < 0 → r2 < 0 → r3 < 0 →
        ctrl_retry T addr ctrl force s =
          (-1, ⟨d3, s.trace ++
            [Event.i2cWrite addr (readRequest addr ctrl), Event.usleep DELAY,
              Event.i2cWrite addr (readRequest addr ctrl), Event.usleep DELAY,
              Event.i2cWrite addr (readRequest addr ctrl), Event.usleep DELAY]⟩, 3)) := by
  refine ⟨fun hw => ⟨ddcci_caps_failed T s addr offset buf L hw, ?_⟩,
    fun hw => ⟨ddcci_readctrl_failed T s addr ctrl buf L hw, ?_⟩, ?_, ?_, ?_, ?_⟩
  · apply retry_loop_again
    show (ddcci_caps T s addr offset buf 35).1 < 0
    rw [ddcci_caps_failed T s addr offset buf 35 hw]
    show (-1 : Int) < 0
    decide
  · apply retry_loop_again
    show (ddcci_dumpctrl T s addr ctrl force).1 < 0
    rw [ddcci_dumpctrl_failed T s addr ctrl force hw]
    show (-1 : Int) < 0
    decide
  · exact retry_loop_segments _ _ (fun st : List Nat × Sys σ => st.2.trace) addr
      (capsRequest addr offset)
      (fun st => ddcci_caps_segment T st.2 addr offset st.1 35)
      (fun st => usleep_segment st.2 addr _) RETRYS len0 (buf, s)
  · exact retry_loop_segments _ _ (fun st : Sys σ => st.trace) addr
      (readRequest addr ctrl)
      (fun st => ddcci_dumpctrl_segment T st addr ctrl force)
      (fun st => usleep_segment st addr _) RETRYS 0 s
  · intro r1 r2 r3 d1 d2 d3 h1 h2 h3 n1 n2 n3
    have c1 : ddcci_caps T s addr offset buf 35 =
        (-1, buf, ⟨d1, s.trace ++ [Event.i2cWrite addr (capsRequest addr offset)]⟩) := by
      rw [ddcci_caps_failed T s addr offset buf 35 (by rw [h1]; exact n1), h1]
    have c2 : ddcci_caps T ⟨d1, s.trace ++
          [Event.i2cWrite addr (capsRequest addr offset), Event.usleep DELAY]⟩ addr offset buf 35 =
        (-1, buf, ⟨d2, s.trace ++ [Event.i2cWrite addr (capsRequest addr offset),
          Event.usleep DELAY, Event.i2cWrite addr (capsRequest addr offset)]⟩) := by
      rw [ddcci_caps_failed T _ addr offset buf 35
        (by show (T.ioctlWrite d1 addr (capsRequest addr offset)).1 < 0; rw [h2]; exact n2)]
      show (_, _, (⟨(T.ioctlWrite d1 addr (capsRequest addr offset)).2, _⟩ : Sys σ)) = _
      rw [h2]
      simp
    have c3 : ddcci_caps T ⟨d2, s.trace ++
          [Event.i2cWrite addr (capsRequest addr offset), Event.usleep DELAY,
            Event.i2cWrite addr (capsRequest addr offset), Event.usleep DELAY]⟩ addr offset buf 35 =
        (-1, buf, ⟨d3, s.trace ++ [Event.i2cWrite addr (capsRequest addr offset),
          Event.usleep DELAY, Event.i2cWrite addr (capsRequest addr offset),
          Event.usleep DELAY, Event.i2cWrite addr (capsRequest addr offset)]⟩) := by
      rw [ddcci_caps_failed T _ addr offset buf 35
        (by show (T.ioctlWrite d2 addr (capsRequest addr offset)).1 < 0; rw [h3]; exact n3)]
      show (_, _, (⟨(T.ioctlWrite d2 addr (capsRequest addr offset)).2, _⟩ : Sys σ)) = _
      rw [h3]
      simp
    simp [caps_retry, retry_loop, RETRYS, c1, c2, c3, usleep]
  · intro r1 r2 r3 d1 d2 d3 h1 h2 h3 n1 n2 n3
    have c1 : ddcci_dumpctrl T s addr ctrl force =
        (-1, ⟨d1, s.trace ++ [Event.i2cWrite addr (readRequest addr ctrl)]⟩) := by
      rw [ddcci_dumpctrl_failed T s addr ctrl force (by rw [h1]; exact n1), h1]
    have c2 : ddcci_dumpctrl T ⟨d1, s.trace ++
          [Event.i2cWrite addr (readRequest addr ctrl), Event.usleep DELAY]⟩ addr ctrl force =
        (-1, ⟨d2, s.trace ++ [Event.i2cWrite addr (readRequest addr ctrl),
          Event.usleep DELAY, Event.i2cWrite addr (readRequest addr ctrl)]⟩) := by
      rw [ddcci_dumpctrl_failed T _ addr ctrl force
        (by show (T.ioctlWrite d1 addr (readRequest addr ctrl)).1 < 0; rw [h2]; exact n2)]
      show (_, (⟨(T.ioctlWrite d1 addr (readRequest addr ctrl)).2, _⟩ : Sys σ)) = _
      rw [h2]
      simp
    have c3 : ddcci_dumpctrl T ⟨d2, s.trace ++
          [Event.i2cWrite addr (readRequest addr ctrl), Event.usleep DELAY,
            Event.i2cWrite addr (readRequest addr ctrl), Event.usleep DELAY]⟩ addr ctrl force =
        (-1, ⟨d3, s.trace ++ [Event.i2cWrite addr (readRequest addr ctrl),
          Event.usleep DELAY, Event.i2cWrite addr (readRequest addr ctrl),
          Event.usleep DELAY, Event.i2cWrite addr (readRequest addr ctrl)]⟩) := by
      rw [ddcci_dumpctrl_failed T _ addr ctrl force
        (by show (T.ioctlWrite d2 addr (readRequest addr ctrl)).1 < 0; rw [h3]; exact n3)]
      show (_, (⟨(T.ioctlWrite d2 addr (readRequest addr ctrl)).2, _⟩ : Sys σ)) = _
      rw [h3]
      simp
    simp [ctrl_retry, retry_loop, RETRYS, c1, c2, c3, usleep]

/-- Instance of C10 (amended): on the simulated transport the write of the
brightness read request fails once and the control read is attempted again;
when it fails three times the request is written three times and never read. -/
theorem failed_write_retried_per_attempt_witness :
    (ddcci_readctrl scripted ⟨⟨[-1, 1], []⟩, []⟩ 0x37 0x10 [0, 0] 8 =
        (-1, [0, 0], ⟨⟨[1], []⟩, [Event.i2cWrite 0x37 [0x51, 0x82, 0x01, 0x10, 0xac]]⟩) ∧
      2 ≤ (ctrl_retry scripted 0x37 0x10 false ⟨⟨[-1, 1], []⟩, []⟩).2.2) ∧
      ctrl_retry scripted 0x37 0x10 false ⟨⟨[-1, -1, -1], []⟩, []⟩ =
        (-1, ⟨⟨[], []⟩,
          [Event.i2cWrite 0x37 [0x51, 0x82, 0x01, 0x10, 0xac], Event.usleep 30000,
            Event.i2cWrite 0x37 [0x51, 0x82, 0x01, 0x10, 0xac], Event.usleep 30000,
            Event.i2cWrite 0x37 [0x51, 0x82, 0x01, 0x10, 0xac], Event.usleep 30000]⟩, 3) :=
  ⟨(failed_write_retried_per_attempt scripted ⟨⟨[-1, 1], []⟩, []⟩ 0x37 0 0x10 false 0
      [0, 0] 8).2.1 (by decide),
    (failed_write_retried_per_attempt scripted ⟨⟨[-1, -1, -1], []⟩, []⟩ 0x37 0 0x10 false 0
      [0, 0] 8).2.2.2.2.2 (-1) (-1) (-1) ⟨[-1, -1], []⟩ ⟨[-1], []⟩ ⟨[], []⟩ rfl rfl rfl
      (by decide) (by decide) (by decide)⟩

/-- C13 (protocol-sequence error is fatal): if the guarded capabilities request
of a pass yields fewer than 3 bytes (or a failure), an opcode other than
`0xe3`, or an echoed offset `buf[1]*256 + buf[2]` different from the requested
offset, the loop stops in that pass: the offset is not advanced and the outside
world is exactly as the guarded request left it, so no data byte of the reply
is printed and no further request is issued. -/
theorem caps_sequence_error_stops {σ : Type} (T : Transport σ) (addr : Nat)
    (c : CapsState σ) (fuel : Nat)
    (h : (caps_retry T addr c.offset c.len c.buf c.sys).1 < 3 ∨
      (caps_retry T addr c.offset c.len c.buf c.sys).2.1.1.getD 0 0 ≠ 0xe3 ∨
      (caps_retry T addr c.offset c.len c.buf c.sys).2.1.1.getD 1 0 * 256 +
        (caps_retry T addr c.offset c.len c.buf c.sys).2.1.1.getD 2 0 ≠ c.offset) :
    ∃ c', caps_loop T addr (fuel + 1) c = some c' ∧ c'.offset = c.offset ∧
      c'.sys = (caps_retry T addr c.offset c.len c.buf c.sys).2.1.2 ∧
      capsOutput c'.sys.trace =
        capsOutput (caps_retry T addr c.offset c.len c.buf c.sys).2.1.2.trace ∧
      countWrites c'.sys.trace =
        countWrites (caps_retry T addr c.offset c.len c.buf c.sys).2.1.2.trace := by
  refine ⟨⟨c.offset, (caps_retry T addr c.offset c.len c.buf c.sys).1,
    (caps_retry T addr c.offset c.len c.buf c.sys).2.1.1,
    (caps_retry T addr c.offset c.len c.buf c.sys).2.1.2⟩, ?_, rfl, rfl, rfl, rfl⟩
  simp only [caps_loop, caps_pass, DDCCI_REPLY_CAPS, h, if_true]
  rfl

/-- Instance of C13: the first reply echoes offset 1 instead of 0; its data byte
`0x41` is not printed and only one request was written. -/
theorem caps_sequence_error_stops_witness :
    ∃ c', caps_loop scripted 0x37 5
        (caps_init ⟨⟨[1, 1], [(1, inboundFrame 0x37 [0xe3, 0, 1, 0x41])]⟩, []⟩) = some c' ∧
      c'.offset = 0 ∧
      c'.sys = (caps_retry scripted 0x37 0 0 (List.replicate 35 0)
        ⟨⟨[1, 1], [(1, inboundFrame 0x37 [0xe3, 0, 1, 0x41])]⟩, []⟩).2.1.2 ∧
      capsOutput c'.sys.trace = [] ∧ countWrites c'.sys.trace = 1 :=
  caps_sequence_error_stops scripted 0x37
    (caps_init ⟨⟨[1, 1], [(1, inboundFrame 0x37 [0xe3, 0, 1, 0x41])]⟩, []⟩) 4 (by decide)

/-- C14 (control-reply acceptance and the force flag): with `len` and `reply`
the decoded length and bytes returned by `ddcci_readctrl`, `ddcci_dumpctrl`
prints the values for control `c` exactly when `len = 8`, `reply[0] = 0x02`,
`reply[2] = c` and either the force flag is set or the validity byte `reply[1]`
is 0; otherwise it prints nothing.  Hence an invalid reply with force unset
yields no values, and with force set the validity byte is not consulted. -/
theorem ddcci_dumpctrl_reports_iff {σ : Type} (T : Transport σ) (s : Sys σ) (a c : Nat)
    (force : Bool) (len : Int) (reply : List Nat) (s1 : Sys σ)
    (hr : ddcci_readctrl T s a c (List.replicate 8 0) 8 = (len, reply, s1)) :
    ((len = 8 ∧ reply.getD 0 0 = 0x02 ∧ reply.getD 2 0 = c ∧
          (force = true ∨ reply.getD 1 0 = 0)) →
        ddcci_dumpctrl T s a c force =
          (len, ⟨s1.dev, s1.trace ++ [Event.printCtrl c (reply.getD 1 0)
            (reply.getD 6 0 * 256 + reply.getD 7 0)
            (reply.getD 4 0 * 256 + reply.getD 5 0)]⟩)) ∧
      (¬ (len = 8 ∧ reply.getD 0 0 = 0x02 ∧ reply.getD 2 0 = c ∧
          (force = true ∨ reply.getD 1 0 = 0)) →
        ddcci_dumpctrl T s a c force = (len, s1)) ∧
      (force = false → reply.getD 1 0 ≠ 0 → ddcci_dumpctrl T s a c force = (len, s1)) ∧
      (force = true → len = 8 → reply.getD 0 0 = 0x02 → reply.getD 2 0 = c →
        (ddcci_dumpctrl T s a c force).2.trace =
          s1.trace ++ [Event.printCtrl c (reply.getD 1 0)
            (reply.getD 6 0 * 256 + reply.getD 7 0)
            (reply.getD 4 0 * 256 + reply.getD 5 0)]) := by
  rw [ddcci_dumpctrl_eq T s a c force len reply s1 hr]
  refine ⟨fun h => by rw [if_pos h], fun h => by rw [if_neg h], fun hf hv => ?_,
    fun hf h8 h0 h2 => ?_⟩
  · rw [if_neg]
    rintro ⟨_, _, _, h | h⟩
    · rw [hf] at h; exact Bool.noConfusion h
    · exact hv h
  · rw [if_pos ⟨h8, h0, h2, Or.inl hf⟩]

/-- Instance of C14: a reply for brightness marked invalid (validity byte 1);
without the force flag nothing is printed. -/
theorem ddcci_dumpctrl_reports_iff_witness :
    ddcci_dumpctrl scripted
        ⟨⟨[1], [(1, inboundFrame 0x37 [2, 1, 0x10, 0, 0, 100, 0, 50])]⟩, []⟩ 0x37 0x10 false =
      (8, ⟨⟨[], []⟩, [Event.i2cWrite 0x37 [0x51, 0x82, 0x01, 0x10, 0xac], Event.usleep 30000,
        Event.i2cRead 0x37 11]⟩) :=
  (ddcci_dumpctrl_reports_iff scripted
    ⟨⟨[1], [(1, inboundFrame 0x37 [2, 1, 0x10, 0, 0, 100, 0, 50])]⟩, []⟩ 0x37 0x10 false
    8 [2, 1, 0x10, 0, 0, 100, 0, 50]
    ⟨⟨[], []⟩, [Event.i2cWrite 0x37 [0x51, 0x82, 0x01, 0x10, 0xac], Event.usleep 30000,
      Event.i2cRead 0x37 11]⟩ rfl).2.2.1 rfl (by decide)

/-- C15 (control-reply value extraction): for every accepted 8-byte reply `r`
the printed maximum is `r[4]*256 + r[5]` and the printed current value is
`r[6]*256 + r[7]`, each in 0..65535. -/
theorem ddcci_dumpctrl_values {σ : Type} (T : Transport σ) (s : Sys σ) (a c : Nat)
    (force : Bool) (len : Int) (reply : List Nat) (s1 : Sys σ)
    (hr : ddcci_readctrl T s a c (List.replicate 8 0) 8 = (len, reply, s1))
    (hbytes : ∀ y ∈ reply, y < 256)
    (hacc : len = 8 ∧ reply.getD 0 0 = 0x02 ∧ reply.getD 2 0 = c ∧
      (force = true ∨ reply.getD 1 0 = 0)) :
    (∃ current maximum, (ddcci_dumpctrl T s a c force).2.trace =
        s1.trace ++ [Event.printCtrl c (reply.getD 1 0) current maximum] ∧
      maximum = reply.getD 4 0 * 256 + reply.getD 5 0 ∧
      current = reply.getD 6 0 * 256 + reply.getD 7 0 ∧
      maximum ≤ 65535 ∧ current ≤ 65535) := by
  refine ⟨reply.getD 6 0 * 256 + reply.getD 7 0, reply.getD 4 0 * 256 + reply.getD 5 0,
    ?_, rfl, rfl, ?_, ?_⟩
  · rw [ddcci_dumpctrl_eq T s a c force len reply s1 hr, if_pos hacc]
  · have h4 := getD_lt_256 reply hbytes 4
    have h5 := getD_lt_256 reply hbytes 5
    omega
  · have h6 := getD_lt_256 reply hbytes 6
    have h7 := getD_lt_256 reply hbytes 7
    omega

/-- Instance of C15: maximum `0x01f4 = 500`, current `0x0132 = 306`. -/
theorem ddcci_dumpctrl_values_witness :
    ∃ current maximum, (ddcci_dumpctrl scripted
        ⟨⟨[1], [(1, inboundFrame 0x37 [2, 0, 0x10, 0, 1, 0xf4, 1, 0x32])]⟩, []⟩
        0x37 0x10 false).2.trace =
        [Event.i2cWrite 0x37 [0x51, 0x82, 0x01, 0x10, 0xac], Event.usleep 30000,
          Event.i2cRead 0x37 11] ++ [Event.printCtrl 0x10 0 current maximum] ∧
      maximum = 1 * 256 + 0xf4 ∧ current = 1 * 256 + 0x32 ∧
      maximum ≤ 65535 ∧ current ≤ 65535 :=
  ddcci_dumpctrl_values scripted
    ⟨⟨[1], [(1, inboundFrame 0x37 [2, 0, 0x10, 0, 1, 0xf4, 1, 0x32])]⟩, []⟩ 0x37 0x10 false
    8 [2, 0, 0x10, 0, 1, 0xf4, 1, 0x32]
    ⟨⟨[], []⟩, [Event.i2cWrite 0x37 [0x51, 0x82, 0x01, 0x10, 0xac], Event.usleep 30000,
      Event.i2cRead 0x37 11]⟩ rfl (by decide) (by decide)

/-- C16 (a rejected control reply is not retried): when the frame decodes
(`len ≥ 0`) but the reply is rejected (wrong length, wrong opcode, control-id
mismatch, or invalid with force unset), `ddcci_dumpctrl` prints nothing and
returns the non-negative `len`, and the retry loop around it performs exactly
one attempt; in general the loop stops after one attempt whenever
`ddcci_dumpctrl` returns a non-negative result and makes at least a second
attempt when it returns a negative one. -/
theorem rejected_reply_not_retried {σ : Type} (T : Transport σ) (s : Sys σ) (a c : Nat)
    (force : Bool) (len : Int) (reply : List Nat) (s1 : Sys σ)
    (hr : ddcci_readctrl T s a c (List.replicate 8 0) 8 = (len, reply, s1)) :
    (0 ≤ len →
        ¬ (len = 8 ∧ reply.getD 0 0 = 0x02 ∧ reply.getD 2 0 = c ∧
          (force = true ∨ reply.getD 1 0 = 0)) →
        ddcci_dumpctrl T s a c force = (len, s1) ∧
          ctrl_retry T a c force s = (len, s1, 1)) ∧
      (0 ≤ (ddcci_dumpctrl T s a c force).1 → (ctrl_retry T a c force s).2.2 = 1) ∧
      ((ddcci_dumpctrl T s a c force).1 < 0 → 2 ≤ (ctrl_retry T a c force s).2.2) := by
  refine ⟨fun h0 hrej => ?_, fun h0 => ?_, fun hneg => ?_⟩
  · have hd : ddcci_dumpctrl T s a c force = (len, s1) := by
      rw [ddcci_dumpctrl_eq T s a c force len reply s1 hr, if_neg hrej]
    refine ⟨hd, ?_⟩
    have hn : ¬ len < 0 := by omega
    simp only [ctrl_retry, RETRYS, retry_loop, hd, hn, if_false]
  · have hn : ¬ (ddcci_dumpctrl T s a c force).1 < 0 := by omega
    simp only [ctrl_retry, RETRYS, retry_loop, hn, if_false]
  · simp only [ctrl_retry, RETRYS, retry_loop, hneg, if_true]
    split_ifs <;> simp

/-- Instance of C16: the reply echoes control `0x12` for a request of `0x10`;
one attempt, nothing printed. -/
theorem rejected_reply_not_retried_witness :
    ctrl_retry scripted 0x37 0x10 true
        ⟨⟨[1, 1, 1], [(1, inboundFrame 0x37 [2, 0, 0x12, 0, 0, 100, 0, 50])]⟩, []⟩ =
      (8, ⟨⟨[1, 1], []⟩, [Event.i2cWrite 0x37 [0x51, 0x82, 0x01, 0x10, 0xac],
        Event.usleep 30000, Event.i2cRead 0x37 11]⟩, 1) :=
  ((rejected_reply_not_retried scripted
    ⟨⟨[1, 1, 1], [(1, inboundFrame 0x37 [2, 0, 0x12, 0, 0, 100, 0, 50])]⟩, []⟩ 0x37 0x10 true
    8 [2, 0, 0x12, 0, 0, 100, 0, 50]
    ⟨⟨[1, 1], []⟩, [Event.i2cWrite 0x37 [0x51, 0x82, 0x01, 0x10, 0xac], Event.usleep 30000,
      Event.i2cRead 0x37 11]⟩ rfl).1 (by decide) (by decide)).2

set_option maxRecDepth 100000 in
/-- C19 (counterexample): with `L = 2` and address `0x37`, a received buffer
whose first byte `0x6f` is neither a busy value nor `0x37*2` makes
`ddcci_read` return `-1` after `dumphex(stderr, _buf, sizeof(_buf))`, which
reads index 126 of `_buf`, beyond the `L + 3 = 5` bytes asked from the
transport. -/
theorem dump_reads_beyond_received :
    (ddcci_read_run scripted ⟨⟨[], [(1, [0x6f, 0x82, 0x01, 0x10, 0xac])]⟩, []⟩
        0x37 [7, 8] 2).ret = -1 ∧
      (ddcci_read_run scripted ⟨⟨[], [(1, [0x6f, 0x82, 0x01, 0x10, 0xac])]⟩, []⟩
        0x37 [7, 8] 2).stored = 2 + 3 ∧
      126 ∈ (ddcci_read_run scripted ⟨⟨[], [(1, [0x6f, 0x82, 0x01, 0x10, 0xac])]⟩, []⟩
        0x37 [7, 8] 2).reads ∧
      ¬ (126 < 2 + 3) := by
  decide

/-- C19 (amended): for every call of `ddcci_read` with maximum expected length
`L ≤ 124` and every received buffer `b`: the `L + 3` bytes asked from the
transport are not truncated by the `unsigned char` conversion and fit the 127
elements of `_buf`, and every index of `_buf` the call reads is smaller than
127.  On every path except an address mismatch every index read (header
tests, `0..n+2` in the checksum fold and its diagnostic, `2..n+1` in the
payload copy) is also smaller than `L + 3`; on an address mismatch the
diagnostic `dumphex(stderr, _buf, sizeof(_buf))` reads all 127 elements.  A
successful call reads exactly the header, `0..n+2` and `2..n+1`, and the
returned length `n` satisfies `0 ≤ n ≤ L`, so that a caller buffer of at
least `L` bytes keeps its size. -/
theorem decoder_index_safety {σ : Type} (T : Transport σ) (s : Sys σ) (a : Nat)
    (buf : List Nat) (L : Nat) (r : Int) (b : List Nat) (d : σ) (hL : L ≤ 124)
    (hT : T.ioctlRead s.dev a ((L + 3) % 256) = (r, b, d)) :
    ddcci_read T s a buf L = ((ddcci_read_run T s a buf L).ret,
        (ddcci_read_run T s a buf L).buf, (ddcci_read_run T s a buf L).sys) ∧
      (ddcci_read_run T s a buf L).stored = L + 3 ∧
      (ddcci_read_run T s a buf L).stored ≤ MAX_BYTES ∧
      (∀ i ∈ (ddcci_read_run T s a buf L).reads, i < MAX_BYTES) ∧
      ((r ≤ 0 ∨ b.getD 0 0 = 0x51 ∨ b.getD 0 0 = 0xff ∨ b.getD 0 0 = (a * 2) % 2 ^ 32) →
        ∀ i ∈ (ddcci_read_run T s a buf L).reads, i < L + 3) ∧
      (0 < r → b.getD 0 0 ≠ 0x51 → b.getD 0 0 ≠ 0xff → b.getD 0 0 ≠ (a * 2) % 2 ^ 32 →
        (ddcci_read_run T s a buf L).reads = [0] ++ dumphex_reads MAX_BYTES ∧
          (ddcci_read_run T s a buf L).ret = -1) ∧
      (0 ≤ (ddcci_read_run T s a buf L).ret →
        (ddcci_read_run T s a buf L).reads =
          [0, 1] ++ List.range ((b.getD 1 0 &&& 0x7f) + 3) ++
            (List.range (b.getD 1 0 &&& 0x7f)).map (fun i => 2 + i)) ∧
      ((ddcci_read_run T s a buf L).ret = -1 ∨
        (0 ≤ (ddcci_read_run T s a buf L).ret ∧
          (ddcci_read_run T s a buf L).ret ≤ (L : Int))) ∧
      (L ≤ buf.length → (ddcci_read_run T s a buf L).buf.length = buf.length) := by
  obtain ⟨hle, hbuf⟩ := i2c_read_of T s a ((L + 3) % 256) r b d hT
  have hst : (ddcci_read_run T s a buf L).stored = L + 3 := by
    rw [run_stored, Nat.mod_eq_of_lt (by omega)]
  refine ⟨rfl, hst, ?_, run_reads_max T s a buf L hL, ?_, ?_, ?_, run_ret_range T s a buf L,
    run_buf_length T s a buf L⟩
  · rw [hst]
    simp only [MAX_BYTES]
    omega
  · intro h
    apply run_reads_count T s a buf L hL
    rw [hbuf, hle]
    exact h
  · intro h1 h2 h3 h4
    apply run_reads_mismatch T s a buf L
    · rw [hle]; omega
    · rw [hbuf]; exact h2
    · rw [hbuf]; exact h3
    · rw [hbuf]; exact h4
  · intro h
    have := run_reads_success T s a buf L h
    rw [hbuf] at this
    exact this

/-- Instance of C19 (amended): `L = 2`, an accepted frame of declared length 2;
the reads are the header, `0..4` and `2..3`. -/
theorem decoder_index_safety_witness :
    (ddcci_read_run scripted ⟨⟨[], [(1, [0x6e, 0x82, 0x01, 0x10, 0xad])]⟩, []⟩
        0x37 [7, 8] 2).reads = [0, 1, 0, 1, 2, 3, 4, 2, 3] ∧
      (ddcci_read_run scripted ⟨⟨[], [(1, [0x6e, 0x82, 0x01, 0x10, 0xad])]⟩, []⟩
        0x37 [7, 8] 2).stored = 2 + 3 :=
  ⟨(decoder_index_safety scripted ⟨⟨[], [(1, [0x6e, 0x82, 0x01, 0x10, 0xad])]⟩, []⟩ 0x37
      [7, 8] 2 1 [0x6e, 0x82, 0x01, 0x10, 0xad] ⟨[], []⟩ (by decide) rfl).2.2.2.2.2.2.1
      (by decide),
    (decoder_index_safety scripted ⟨⟨[], [(1, [0x6e, 0x82, 0x01, 0x10, 0xad])]⟩, []⟩ 0x37
      [7, 8] 2 1 [0x6e, 0x82, 0x01, 0x10, 0xad] ⟨[], []⟩ (by decide) rfl).2.1⟩

/-- C11 (capability reassembly): when the simulated transport accepts every
request and answers the successive capabilities requests with valid reply
frames for the chunks `chunks` (opcode `0xe3`, echoed offset equal to the
requested offset, 1..32 data bytes each) followed by one reply without data,
the loop terminates (with any fuel of at least one pass per reply) after that
last reply, having read exactly one frame per reply, and the data bytes it
printed are, in order, the concatenation of the chunks. -/
theorem caps_reassembly (a : Nat) (chunks : List (List Nat)) (tr : List Event) (fuel : Nat)
    (ha : a < 128)
    (hch : ∀ c ∈ chunks, 1 ≤ c.length ∧ c.length ≤ 32 ∧ ∀ y ∈ c, y < 256)
    (htot : chunks.flatten.length ≤ 65535) (hfuel : chunks.length + 1 ≤ fuel) :
    ∃ c', caps_loop scripted a fuel
        (caps_init ⟨⟨List.replicate (chunks.length + 1) 1, capsReplies a 0 chunks⟩, tr⟩) =
          some c' ∧
      capsOutput c'.sys.trace = capsOutput tr ++ chunks.flatten ∧
      c'.offset = chunks.flatten.length ∧ c'.sys.dev = ⟨[], []⟩ ∧
      countReads c'.sys.trace = countReads tr + (chunks.length + 1) := by
  obtain ⟨c', h1, h2, h3, h4, h5⟩ := scripted_chunks a ha chunks 0 0 (List.replicate 35 0) tr
    fuel hch (by omega) hfuel
  exact ⟨c', h1, h2, by rw [h3, Nat.zero_add], h4, h5⟩

/-- Instance of C11: the chunks `AB` and `C`, then the terminal reply. -/
theorem caps_reassembly_witness :
    ∃ c', caps_loop scripted 0x37 3
        (caps_init ⟨⟨[1, 1, 1], capsReplies 0x37 0 [[0x41, 0x42], [0x43]]⟩, []⟩) = some c' ∧
      capsOutput c'.sys.trace = [0x41, 0x42, 0x43] ∧
      c'.offset = 3 ∧ c'.sys.dev = ⟨[], []⟩ ∧ countReads c'.sys.trace = 3 :=
  caps_reassembly 0x37 [[0x41, 0x42], [0x43]] [] 3 (by decide) (by decide) (by decide)
    (by decide)

/-- C12 (counterexample): no device makes the capabilities loop run forever:
there is no transport delivering bytes, state and address for which the loop
is still running after every number of passes. -/
theorem caps_loop_never_diverges :
    ¬ ∃ (σ : Type) (T : Transport σ) (s : Sys σ) (a : Nat),
      T.deliversBytes ∧ ∀ fuel, caps_loop T a fuel (caps_init s) = none := by
  rintro ⟨σ, T, s, a, hT, h⟩
  obtain ⟨c', seg, h1, _⟩ := caps_loop_spec T hT a 65537 (caps_init s)
    (fun y hy => by
      have := List.eq_of_mem_replicate hy
      omega)
    (by show 65536 - 0 < 65537; omega)
  rw [h 65537] at h1
  exact Option.noConfusion h1

/-- C12 (amended): the capabilities loop has no explicit iteration cap but is
bounded by the two-byte echo field: against every device it ends within 65537
passes, having issued at most `3 * 65537 = 196611` capabilities requests; a
device that never sends a terminal chunk (every reply passes the opcode and
offset-echo checks and carries one data byte) keeps it running for 65536
passes, not forever. -/
theorem caps_loop_bounded {σ : Type} (T : Transport σ) (hT : T.deliversBytes) (a : Nat)
    (s : Sys σ) (b : Nat) (hb : b < 128) (t : Sys Nat) :
    (∃ c', caps_loop T a 65537 (caps_init s) = some c' ∧
        countWrites c'.sys.trace ≤ countWrites s.trace + 196611) ∧
      (∀ fuel, fuel ≤ 65536 → caps_loop babbler b fuel (caps_init t) = none) := by
  refine ⟨?_, fun fuel hf => babbler_keeps_going b hb fuel (caps_init t)
    (by show 0 + fuel ≤ 65536; omega)⟩
  obtain ⟨c', seg, h1, h2, _, _, h5⟩ := caps_loop_spec T hT a 65537 (caps_init s)
    (fun y hy => by
      have := List.eq_of_mem_replicate hy
      omega)
    (by show 65536 - 0 < 65537; omega)
  refine ⟨c', h1, ?_⟩
  rw [h2, countWrites_append]
  have : (caps_init s).sys.trace = s.trace := rfl
  rw [this]
  omega

/-- Instance of C12 (amended): the device that never sends a terminal chunk. -/
theorem caps_loop_bounded_witness :
    (∃ c', caps_loop babbler 0x37 65537 (caps_init ⟨0, []⟩) = some c' ∧
        countWrites c'.sys.trace ≤ countWrites [] + 196611) ∧
      (∀ fuel, fuel ≤ 65536 → caps_loop babbler 0x37 fuel (caps_init ⟨0, []⟩) = none) :=
  caps_loop_bounded babbler babbler_deliversBytes 0x37 ⟨0, []⟩ 0x37 (by decide) ⟨0, []⟩

/-- C17 (capability offset invariant): in a complete run of the loop every
capabilities request written to the transport is the request for the number
of data bytes printed before it (starting at 0), and the final offset is the
number of data bytes printed; in every pass an accepted chunk of decoded
length `n ≥ 3` makes the offset grow by exactly `n - 3`, and the offset grows
strictly whenever the loop goes on to another pass. -/
theorem caps_offset_invariant {σ : Type} (T : Transport σ) (hT : T.deliversBytes) (a : Nat)
    (s : Sys σ) (c : CapsState σ) :
    (∃ c' seg, caps_loop T a 65537 (caps_init s) = some c' ∧
        c'.sys.trace = s.trace ++ seg ∧ requestsMatch a 0 seg = true ∧
        c'.offset = (capsOutput seg).length) ∧
      (¬ ((caps_retry T a c.offset c.len c.buf c.sys).1 < 3 ∨
          (caps_retry T a c.offset c.len c.buf c.sys).2.1.1.getD 0 0 ≠ 0xe3 ∨
          (caps_retry T a c.offset c.len c.buf c.sys).2.1.1.getD 1 0 * 256 +
            (caps_retry T a c.offset c.len c.buf c.sys).2.1.1.getD 2 0 ≠ c.offset) →
        (caps_pass T a c).2.len = (caps_retry T a c.offset c.len c.buf c.sys).1 ∧
          3 ≤ (caps_pass T a c).2.len ∧
          ((caps_pass T a c).2.offset : Int) = (c.offset : Int) + ((caps_pass T a c).2.len - 3)) ∧
      ((caps_pass T a c).1 = true → c.offset < (caps_pass T a c).2.offset) := by
  refine ⟨?_, fun hc => ?_, fun hgo => ?_⟩
  · obtain ⟨c', seg, h1, h2, h3, h4, _⟩ := caps_loop_spec T hT a 65537 (caps_init s)
      (fun y hy => by
        have := List.eq_of_mem_replicate hy
        omega)
      (by show 65536 - 0 < 65537; omega)
    refine ⟨c', seg, h1, h2, h3, ?_⟩
    rw [h4]
    show 0 + _ = _
    omega
  · rw [caps_pass_accept T a c hc]
    simp only [not_or, not_lt] at hc
    refine ⟨rfl, hc.1, ?_⟩
    show ((c.offset + ((caps_retry T a c.offset c.len c.buf c.sys).1 - 3).toNat : Nat) : Int) =
      (c.offset : Int) + ((caps_retry T a c.offset c.len c.buf c.sys).1 - 3)
    have := hc.1
    omega
  · by_cases hc : (caps_retry T a c.offset c.len c.buf c.sys).1 < 3 ∨
        (caps_retry T a c.offset c.len c.buf c.sys).2.1.1.getD 0 0 ≠ DDCCI_REPLY_CAPS ∨
        (caps_retry T a c.offset c.len c.buf c.sys).2.1.1.getD 1 0 * 256 +
          (caps_retry T a c.offset c.len c.buf c.sys).2.1.1.getD 2 0 ≠ c.offset
    · rw [caps_pass_break T a c hc] at hgo
      exact Bool.noConfusion hgo
    · rw [caps_pass_accept T a c hc] at hgo ⊢
      simp only [decide_eq_true_eq] at hgo
      show c.offset < c.offset + ((caps_retry T a c.offset c.len c.buf c.sys).1 - 3).toNat
      omega

/-- Instance of C17: a complete run against the device that never sends a
terminal chunk, and one pass from offset 0. -/
theorem caps_offset_invariant_witness :
    (∃ c' seg, caps_loop babbler 0x37 65537 (caps_init ⟨0, []⟩) = some c' ∧
        c'.sys.trace = [] ++ seg ∧ requestsMatch 0x37 0 seg = true ∧
        c'.offset = (capsOutput seg).length) ∧
      ((caps_pass babbler 0x37 (caps_init ⟨0, []⟩)).1 = true →
        0 < (caps_pass babbler 0x37 (caps_init ⟨0, []⟩)).2.offset) :=
  ⟨(caps_offset_invariant babbler babbler_deliversBytes 0x37 ⟨0, []⟩ (caps_init ⟨0, []⟩)).1,
    (caps_offset_invariant babbler babbler_deliversBytes 0x37 ⟨0, []⟩
      (caps_init ⟨0, []⟩)).2.2⟩

end Ddcci
